import Mathlib

/-!
Verification development for the MCP example servers
(`examples/mcp_2025_11_25_server.py`, `examples/echo_server_streamable.py`,
`examples/elicitation/elicitation_streamable_server.py`).

Python dictionaries are embedded as association lists with
insert-or-update (`aset`), lookup (`alookup`) and delete (`adel`),
mirroring `d[k] = v`, `d.get(k)` and `del d[k]`.  Timestamps are
integers (seconds).  Each handler is translated branch by branch from
the source; response payloads that are pure catalog/demo content
(tool lists, prompt text) are represented by labelled constructors,
since no claim inspects their bodies.
-/

namespace MCPModel

/-- Lookup in an association list (first binding wins), as `dict.get`. -/
def alookup {κ α : Type} [DecidableEq κ] : List (κ × α) → κ → Option α
  | [], _ => none
  | (k, v) :: rest, key => if k = key then some v else alookup rest key

/-- Insert-or-update in an association list, as `dict[k] = v`. -/
def aset {κ α : Type} [DecidableEq κ] : List (κ × α) → κ → α → List (κ × α)
  | [], key, v => [(key, v)]
  | (k, w) :: rest, key, v =>
      if k = key then (key, v) :: rest else (k, w) :: aset rest key v

/-- Delete the first binding of a key, as `del dict[k]`. -/
def adel {κ α : Type} [DecidableEq κ] : List (κ × α) → κ → List (κ × α)
  | [], _ => []
  | (k, w) :: rest, key => if k = key then rest else (k, w) :: adel rest key

/-- The keys of an association list are pairwise distinct. -/
def keysNodup {κ α : Type} (l : List (κ × α)) : Prop :=
  (l.map Prod.fst).Nodup

theorem alookup_aset_self {κ α : Type} [DecidableEq κ]
    (l : List (κ × α)) (k : κ) (v : α) :
    alookup (aset l k v) k = some v := by
  induction l with
  | nil => simp [aset, alookup]
  | cons hd tl ih =>
    obtain ⟨k0, v0⟩ := hd
    by_cases h : k0 = k
    · subst h; simp [aset, alookup]
    · simp [aset, alookup, h, ih]

theorem alookup_aset_ne {κ α : Type} [DecidableEq κ]
    (l : List (κ × α)) (k k' : κ) (v : α) (h : k' ≠ k) :
    alookup (aset l k v) k' = alookup l k' := by
  induction l with
  | nil =>
    have hk : ¬ k = k' := fun h2 => h h2.symm
    simp [aset, alookup, hk]
  | cons hd tl ih =>
    obtain ⟨k0, v0⟩ := hd
    by_cases h0 : k0 = k
    · subst h0
      have hk : ¬ k0 = k' := fun h2 => h (h2 ▸ rfl)
      simp [aset, alookup, hk]
    · by_cases h1 : k0 = k'
      · subst h1; simp [aset, alookup, h0]
      · simp [aset, alookup, h0, h1, ih]

theorem alookup_adel_ne {κ α : Type} [DecidableEq κ]
    (l : List (κ × α)) (k k' : κ) (h : k' ≠ k) :
    alookup (adel l k) k' = alookup l k' := by
  induction l with
  | nil => simp [adel]
  | cons hd tl ih =>
    obtain ⟨k0, v0⟩ := hd
    by_cases h0 : k0 = k
    · subst h0
      have hk : ¬ k0 = k' := fun h2 => h (h2 ▸ rfl)
      simp [adel, alookup, hk]
    · by_cases h1 : k0 = k'
      · subst h1; simp [adel, alookup, h0]
      · simp [adel, alookup, h0, h1, ih]

theorem alookup_not_mem {κ α : Type} [DecidableEq κ]
    (l : List (κ × α)) (k : κ) (h : k ∉ l.map Prod.fst) :
    alookup l k = none := by
  induction l with
  | nil => simp [alookup]
  | cons hd tl ih =>
    obtain ⟨k0, v0⟩ := hd
    simp only [List.map_cons, List.mem_cons] at h
    push_neg at h
    simp only [alookup, if_neg (fun he : k0 = k => h.1 he.symm)]
    exact ih h.2

theorem alookup_adel_self {κ α : Type} [DecidableEq κ]
    (l : List (κ × α)) (k : κ) (hnd : keysNodup l) :
    alookup (adel l k) k = none := by
  induction l with
  | nil => simp [adel, alookup]
  | cons hd tl ih =>
    obtain ⟨k0, v0⟩ := hd
    simp only [keysNodup, List.map_cons, List.nodup_cons] at hnd
    by_cases h0 : k0 = k
    · subst h0
      simp only [adel, if_pos rfl]
      exact alookup_not_mem tl k0 hnd.1
    · simp only [adel, if_neg h0, alookup, if_neg h0]
      exact ih hnd.2

/-!
## Task registry (`examples/mcp_2025_11_25_server.py`)

Embeds the in-memory task registry (module globals `tasks`,
`tasks_lock`), `create_task_record`, `task_to_response`,
`run_task_in_background` (split at its lock boundaries into
`run_task_start`, `run_task_step`, `run_task_finish`) and the
`tasks/create`, `tasks/get`, `tasks/cancel` handlers.  The lock makes
each `with tasks_lock:` block atomic, which is exactly the granularity
of the step functions below; interleavings of the worker with
`tasks/cancel` and `tasks/get` are modelled as sequences of these
steps.  Task `params` are carried as an opaque string; the
`request_id` envelope wrapper is elided (the claims only inspect the
error code and the result payload).
-/

inductive TaskState
  | pending | running | completed | failed | cancelled
deriving DecidableEq, Repr

/-- The Python string for a task state. -/
def TaskState.str : TaskState → String
  | .pending => "pending"
  | .running => "running"
  | .completed => "completed"
  | .failed => "failed"
  | .cancelled => "cancelled"

/-- `task["state"] in ("completed", "failed", "cancelled")`. -/
def TaskState.isTerminal : TaskState → Bool
  | .completed | .failed | .cancelled => true
  | _ => false

/-- One task dict as stored in the `tasks` registry. -/
structure TaskRec where
  state : TaskState
  method : String
  params : String
  progressToken : Option String
  progress : Option Nat
  total : Option Nat
  message : String
  result : Option (List (String × String))
deriving DecidableEq, Repr

abbrev TaskRegistry := List (String × TaskRec)

/-- Python truthiness filter on an optional string
(`if task.get("progressToken")`). -/
def truthyOpt : Option String → Option String
  | some s => if s = "" then none else some s
  | none => none

/-- Python truthiness filter on a string (`if task.get("message")`). -/
def truthyStr (s : String) : Option String :=
  if s = "" then none else some s

/-- `create_task_record`: build the fresh task dict and store it. -/
def create_task_record (reg : TaskRegistry) (taskId method paramsStr : String)
    (progressToken : Option String) : TaskRegistry × TaskRec :=
  let t : TaskRec :=
    { state := .pending, method := method, params := paramsStr,
      progressToken := progressToken, progress := none, total := none,
      message := "Task created", result := none }
  (aset reg taskId t, t)

/-- The public snapshot produced by `task_to_response` (optional fields
are `none` when the Python code omits the key). -/
structure TaskSnapshot where
  id : String
  state : TaskState
  progressToken : Option String
  progress : Option Nat
  total : Option Nat
  message : Option String
  result : Option (List (String × String))
deriving DecidableEq, Repr

/-- `task_to_response`: `progressToken`/`message` are included only when
truthy, `progress`/`total`/`result` only when not `None`. -/
def task_to_response (taskId : String) (t : TaskRec) : TaskSnapshot :=
  { id := taskId, state := t.state,
    progressToken := truthyOpt t.progressToken,
    progress := t.progress, total := t.total,
    message := truthyStr t.message, result := t.result }

/-- The outcome of a tasks RPC: `make_result` with a task snapshot, or
`make_error` with a code and message. -/
inductive TasksRpcOut
  | ok (snap : TaskSnapshot)
  | err (code : Int) (msg : String)
deriving DecidableEq, Repr

/-- First locked block of `run_task_in_background` (after the 0.1 s
sleep): unconditionally moves the task to `running` with
`total = 5`, `progress = 0`.  Note the source does NOT re-check for a
cancellation that happened while the task was still `pending`. -/
def run_task_start (reg : TaskRegistry) (taskId : String) : TaskRegistry :=
  match alookup reg taskId with
  | none => reg
  | some t =>
      aset reg taskId
        { t with state := .running, total := some 5, progress := some 0,
                 message := "Starting work..." }

/-- One iteration of the worker loop (`for step in range(1, 6)`): halts
if the task is gone or `cancelled`, otherwise records the progress. -/
def run_task_step (reg : TaskRegistry) (taskId : String) (step : Nat) :
    TaskRegistry :=
  match alookup reg taskId with
  | none => reg
  | some t =>
      if t.state = .cancelled then reg
      else
        aset reg taskId
          { t with progress := some step,
                   message := "Step " ++ toString step ++ " of 5" }

/-- Final locked block of the worker: completes the task (state,
message and result updated together under the lock) unless cancelled. -/
def run_task_finish (reg : TaskRegistry) (taskId : String) : TaskRegistry :=
  match alookup reg taskId with
  | none => reg
  | some t =>
      if t.state = .cancelled then reg
      else
        aset reg taskId
          { t with state := .completed, message := "All steps done",
                   result := some
                     [("summary", "Background task finished successfully")] }

/-- `handle_tasks_create`: store a `pending` task and return its
snapshot; the background worker is modelled as later
`run_task_start`/`run_task_step`/`run_task_finish` steps. -/
def handle_tasks_create (reg : TaskRegistry) (taskId method paramsStr : String)
    (progressToken : Option String) : TaskRegistry × TasksRpcOut :=
  let (reg1, t) := create_task_record reg taskId method paramsStr progressToken
  (reg1, .ok (task_to_response taskId t))

/-- `handle_tasks_get`. -/
def handle_tasks_get (reg : TaskRegistry) (taskId : String) : TasksRpcOut :=
  match alookup reg taskId with
  | none => .err (-32602) ("Task not found: " ++ taskId)
  | some t => .ok (task_to_response taskId t)

/-- `handle_tasks_cancel`: rejects unknown ids and terminal states with
code -32602 (the quoting of the state name in the Python message is
elided), otherwise marks the task cancelled. -/
def handle_tasks_cancel (reg : TaskRegistry) (taskId : String) :
    TaskRegistry × TasksRpcOut :=
  match alookup reg taskId with
  | none => (reg, .err (-32602) ("Task not found: " ++ taskId))
  | some t =>
      if t.state.isTerminal then
        (reg, .err (-32602) ("Cannot cancel task in state " ++ t.state.str))
      else
        let t2 := { t with state := .cancelled, message := "Cancelled by client" }
        (aset reg taskId t2, .ok (task_to_response taskId t2))

/-- Operations that touch the task registry. -/
inductive TaskOp
  | create (taskId method paramsStr : String) (tok : Option String)
  | get (taskId : String)
  | cancel (taskId : String)
  | workerStart (taskId : String)
  | workerStep (taskId : String) (n : Nat)
  | workerFinish (taskId : String)

/-- Registry effect of one operation (`tasks/get` reads only). -/
def applyTaskOp : TaskOp → TaskRegistry → TaskRegistry
  | .create taskId m p tok, reg => (handle_tasks_create reg taskId m p tok).1
  | .get _, reg => reg
  | .cancel taskId, reg => (handle_tasks_cancel reg taskId).1
  | .workerStart taskId, reg => run_task_start reg taskId
  | .workerStep taskId n, reg => run_task_step reg taskId n
  | .workerFinish taskId, reg => run_task_finish reg taskId

def applyTaskOps (ops : List TaskOp) (reg : TaskRegistry) : TaskRegistry :=
  ops.foldl (fun r op => applyTaskOp op r) reg

theorem alookup_aset_isSome {κ α : Type} [DecidableEq κ]
    (l : List (κ × α)) (k k' : κ) (v : α)
    (h : (alookup l k').isSome = true) :
    (alookup (aset l k v) k').isSome = true := by
  by_cases he : k' = k
  · subst he; rw [alookup_aset_self]; rfl
  · rw [alookup_aset_ne l k k' v he]; exact h

/-- C3: `tasks/cancel` on a task already in a terminal state
(`completed`, `failed` or `cancelled`) answers with a structured
error carrying the invalid-params code -32602 and leaves the task
registry — in particular the task record and its state — unchanged. -/
theorem tasks_cancel_terminal_rejected :
    ∀ (reg : TaskRegistry) (taskId : String) (t : TaskRec),
      alookup reg taskId = some t →
      t.state.isTerminal = true →
      handle_tasks_cancel reg taskId =
        (reg, .err (-32602) ("Cannot cancel task in state " ++ t.state.str)) := by
  intro reg taskId t hl ht
  simp [handle_tasks_cancel, hl, ht]

def c3rec : TaskRec :=
  { state := .completed, method := "demo", params := "p", progressToken := none,
    progress := some 5, total := some 5, message := "All steps done",
    result := some [("summary", "Background task finished successfully")] }

def c3reg : TaskRegistry := [("t1", c3rec)]

theorem tasks_cancel_terminal_rejected_witness :
    alookup c3reg "t1" = some c3rec ∧
    c3rec.state.isTerminal = true ∧
    handle_tasks_cancel c3reg "t1" =
      (c3reg, .err (-32602) ("Cannot cancel task in state " ++ c3rec.state.str)) :=
  ⟨rfl, rfl, tasks_cancel_terminal_rejected c3reg "t1" c3rec rfl rfl⟩

def c4reg0 : TaskRegistry := (create_task_record [] "t1" "demo" "p" none).1

def c4reg1 : TaskRegistry := (handle_tasks_cancel c4reg0 "t1").1

def c4reg2 : TaskRegistry := run_task_start c4reg1 "t1"

def c4regFinal : TaskRegistry :=
  applyTaskOps
    [.workerStep "t1" 1, .workerStep "t1" 2, .workerStep "t1" 3,
     .workerStep "t1" 4, .workerStep "t1" 5, .workerFinish "t1"]
    c4reg2

/-- C4 (code bug): if `tasks/cancel` lands while the task is still
`pending` — i.e. during the worker's initial 0.1 s sleep — the task
reaches the terminal state `cancelled`, but the worker's first locked
block then overwrites it back to `running` (it never re-checks for
cancellation) and the run continues to `completed`.  The task thus
leaves a terminal state and visits two distinct terminal values,
contradicting the claimed invariant. -/
theorem task_cancelled_overwritten_by_worker_start :
    (alookup c4reg1 "t1").map TaskRec.state = some .cancelled ∧
    (alookup c4reg2 "t1").map TaskRec.state = some .running ∧
    (alookup c4regFinal "t1").map TaskRec.state = some .completed :=
  ⟨rfl, rfl, rfl⟩

/-- C6: `tasks/create` stores the new task as `pending` and the caller
observes a `pending` snapshot; after the background worker runs all
five steps to completion with no cancel, `tasks/get` returns
`completed`, progress 5 of 5, and a non-null result. -/
theorem tasks_create_pending_then_completed :
    ∀ (reg : TaskRegistry) (taskId m p : String) (tok : Option String),
      (handle_tasks_create reg taskId m p tok).2 =
        .ok { id := taskId, state := .pending, progressToken := truthyOpt tok,
              progress := none, total := none,
              message := some "Task created", result := none } ∧
      handle_tasks_get
          (applyTaskOps
            [.workerStart taskId, .workerStep taskId 1, .workerStep taskId 2,
             .workerStep taskId 3, .workerStep taskId 4, .workerStep taskId 5,
             .workerFinish taskId]
            (handle_tasks_create reg taskId m p tok).1) taskId =
        .ok { id := taskId, state := .completed, progressToken := truthyOpt tok,
              progress := some 5, total := some 5,
              message := some "All steps done",
              result := some
                [("summary", "Background task finished successfully")] } := by
  intro reg taskId m p tok
  constructor
  · simp [handle_tasks_create, create_task_record, task_to_response, truthyStr]
  · simp [applyTaskOps, applyTaskOp, handle_tasks_create, create_task_record,
          run_task_start, run_task_step, run_task_finish, handle_tasks_get,
          alookup_aset_self, task_to_response, truthyStr]

theorem applyTaskOp_keeps (op : TaskOp) (reg : TaskRegistry) (taskId : String)
    (h : (alookup reg taskId).isSome = true) :
    (alookup (applyTaskOp op reg) taskId).isSome = true := by
  cases op with
  | create tid2 m p tok =>
    simp only [applyTaskOp, handle_tasks_create, create_task_record]
    exact alookup_aset_isSome _ _ _ _ h
  | get _ => exact h
  | cancel tid2 =>
    simp only [applyTaskOp, handle_tasks_cancel]
    cases hl : alookup reg tid2 with
    | none => exact h
    | some t =>
      by_cases ht : t.state.isTerminal
      · simp [ht]; exact h
      · simp [ht]; exact alookup_aset_isSome _ _ _ _ h
  | workerStart tid2 =>
    simp only [applyTaskOp, run_task_start]
    cases hl : alookup reg tid2 with
    | none => exact h
    | some t => exact alookup_aset_isSome _ _ _ _ h
  | workerStep tid2 n =>
    simp only [applyTaskOp, run_task_step]
    cases hl : alookup reg tid2 with
    | none => exact h
    | some t =>
      by_cases hc : t.state = .cancelled
      · simp [hc]; exact h
      · simp [hc]; exact alookup_aset_isSome _ _ _ _ h
  | workerFinish tid2 =>
    simp only [applyTaskOp, run_task_finish]
    cases hl : alookup reg tid2 with
    | none => exact h
    | some t =>
      by_cases hc : t.state = .cancelled
      · simp [hc]; exact h
      · simp [hc]; exact alookup_aset_isSome _ _ _ _ h

/-- C10: no operation on the task registry ever deletes a task: after
any sequence of creates, gets, cancels and worker steps, a previously
stored task id is still present and `tasks/get` for it succeeds with a
snapshot (never the not-found error), after completion and after
cancellation alike. -/
theorem tasks_never_removed :
    ∀ (ops : List TaskOp) (reg : TaskRegistry) (taskId : String),
      (alookup reg taskId).isSome = true →
      (alookup (applyTaskOps ops reg) taskId).isSome = true ∧
      ∃ snap, handle_tasks_get (applyTaskOps ops reg) taskId = .ok snap := by
  intro ops
  induction ops with
  | nil =>
    intro reg taskId h
    refine ⟨h, ?_⟩
    cases hl : alookup reg taskId with
    | none => rw [hl] at h; exact absurd h (by simp)
    | some t =>
      exact ⟨task_to_response taskId t, by simp [handle_tasks_get, applyTaskOps, hl]⟩
  | cons op rest ih =>
    intro reg taskId h
    have h2 := applyTaskOp_keeps op reg taskId h
    have := ih (applyTaskOp op reg) taskId h2
    simpa [applyTaskOps] using this

def c10reg : TaskRegistry := (create_task_record [] "t9" "m" "p" none).1

def c10ops : List TaskOp :=
  [.cancel "t9", .workerStart "t9", .workerFinish "t9", .get "t9"]

theorem tasks_never_removed_witness :
    (alookup c10reg "t9").isSome = true ∧
    ((alookup (applyTaskOps c10ops c10reg) "t9").isSome = true ∧
     ∃ snap, handle_tasks_get (applyTaskOps c10ops c10reg) "t9" = .ok snap) :=
  ⟨rfl, tasks_never_removed c10ops c10reg "t9" rfl⟩

/-!
## Echo streamable server (`examples/echo_server_streamable.py`)

Embeds the session store (`sessions` dict), the `Session` class, the
per-session producer threads `send_ping` / `send_notifications`, the
`send_progress` closure spawned by the `long_task` tool, the SSE drain
loop of `handle_events`, `handle_session_termination` (DELETE) and the
reaper `cleanup_inactive_sessions`.

The Python heap is modelled separately from the `sessions` dict:
`EchoState.heap` holds every `Session` object ever constructed (threads
keep references to a `Session` even after `del sessions[...]`), while
`EchoState.store` is the key set of the `sessions` dict.  Each sleep
boundary of a producer/consumer loop is one atomic step.  Event
payloads are constructor labels (their JSON bodies are demo content no
claim inspects); `delivered` records, in order, the events the SSE
generator has yielded for the session.  `progressBudget` counts the
queue puts still owed by spawned `send_progress` threads — note that
`send_progress` does NOT check `session.active` before putting.
-/

inductive EchoEvent
  | ping (n : Nat)
  | serverStatus
  | manualNotif
  | progressNote (n : Nat)
deriving DecidableEq, Repr

inductive EchoResult
  | emptyObj
  | otherVal
deriving DecidableEq, Repr

/-- One `Session` object of the echo server (the two thread handles are
represented by `threadsStarted`; `ping_count` as `pingCount`), together
with the control state of the loops bound to it.  The three `*Armed`
flags are not attributes of the Python `Session`: each records the
thread-local program counter of the one loop of that kind bound to the
session — `true` exactly when that loop has passed its
`if session.active` / `while session.active` check and has not yet
performed the `put`/`yield` that follows it.  No lock protects the
source's check-then-act sequences, so a termination can land between
the check and the act; splitting each loop body at that point makes
every such interleaving a trace of this model. -/
structure EchoSession where
  createdAt : Int
  lastActivity : Int
  pingCount : Nat
  queue : List EchoEvent
  delivered : List EchoEvent
  active : Bool
  threadsStarted : Bool
  progressBudget : Nat
  pingArmed : Bool
  statusArmed : Bool
  drainArmed : Bool
deriving DecidableEq, Repr

def newEchoSession (now : Int) : EchoSession :=
  { createdAt := now, lastActivity := now, pingCount := 0, queue := [],
    delivered := [], active := true, threadsStarted := false,
    progressBudget := 0, pingArmed := false, statusArmed := false,
    drainArmed := false }

structure EchoState where
  heap : List (String × EchoSession)
  store : List String
deriving DecidableEq, Repr

/-- Update the value bound to a key, if present (Python attribute
assignment through a dict lookup or a held reference). -/
def aupd {κ α : Type} [DecidableEq κ] (l : List (κ × α)) (k : κ) (f : α → α) :
    List (κ × α) :=
  match alookup l k with
  | none => l
  | some v => aset l k (f v)

theorem alookup_aupd_self {κ α : Type} [DecidableEq κ]
    (l : List (κ × α)) (k : κ) (f : α → α) :
    alookup (aupd l k f) k = (alookup l k).map f := by
  cases hl : alookup l k with
  | none => simp [aupd, hl]
  | some v => simp [aupd, hl, alookup_aset_self]

theorem alookup_aupd_ne {κ α : Type} [DecidableEq κ]
    (l : List (κ × α)) (k k' : κ) (f : α → α) (h : k' ≠ k) :
    alookup (aupd l k f) k' = alookup l k' := by
  cases hl : alookup l k with
  | none => simp [aupd, hl]
  | some v => simp [aupd, hl, alookup_aset_ne _ _ _ _ h]

/-- `if session_id and session_id in sessions` (header truthiness plus
dict membership). -/
def hdrValid (hdr : Option String) (store : List String) : Bool :=
  match hdr with
  | some h => (!(h == "")) && store.contains h
  | none => false

/-- `if session_id in sessions` (`None in sessions` is `False`). -/
def hdrInStore (hdr : Option String) (store : List String) : Bool :=
  match hdr with
  | some h => store.contains h
  | none => false

/-- The parts of an inbound POST /mcp body that `handle_rpc` branches
on: `method`, the `result` field (for the pong check
`request_data.get('result') == {}`), and for `tools/call` the tool
name and the `steps` argument of `long_task`. -/
structure EchoEnvelope where
  method : Option String
  rid : Option Int
  result : Option EchoResult
  toolName : Option String
  steps : Option Nat
deriving DecidableEq, Repr

/-- HTTP-level outcome of an echo-server endpoint. -/
inductive EchoOut
  | sseResp (branch : String)
  | accepted
  | ok200
  | notFound404
deriving DecidableEq, Repr

/-- `handle_rpc` (POST /mcp), branch by branch in source order.  The
response payloads of the catalog branches are labels; only the state
effects matter to the claims.  `freshId` stands for the
`generate_session_id()` result of the `initialize` branch. -/
def echoHandleRpc (now : Int) (freshId : String) (hdr : Option String)
    (env : EchoEnvelope) (st : EchoState) : EchoState × EchoOut :=
  if env.method = some "initialize" then
    ({ heap := aset st.heap freshId (newEchoSession now),
       store := st.store ++ [freshId] }, .sseResp "initialize")
  else if env.method = some "notifications/initialized" then
    if hdrValid hdr st.store then
      ({ st with heap := aupd st.heap (hdr.getD "")
                     (fun s => { s with threadsStarted := true }) }, .accepted)
    else (st, .accepted)
  else if env.method = some "tools/list" then (st, .sseResp "tools/list")
  else if env.method = some "prompts/list" then (st, .sseResp "prompts/list")
  else if env.method = some "prompts/get" then (st, .sseResp "prompts/get")
  else if env.method = some "resources/list" then (st, .sseResp "resources/list")
  else if env.method = some "resources/read" then (st, .sseResp "resources/read")
  else if env.method = some "tools/call" then
    if env.toolName = some "echo" then (st, .sseResp "tools/call echo")
    else if env.toolName = some "long_task" then
      if hdrInStore hdr st.store then
        ({ st with heap := aupd st.heap (hdr.getD "")
                       (fun s => { s with
                         progressBudget := s.progressBudget + env.steps.getD 5 }) },
         .sseResp "tools/call long_task")
      else (st, .sseResp "tools/call long_task")
    else if env.toolName = some "trigger_notification" then
      if hdrInStore hdr st.store then
        ({ st with heap := aupd st.heap (hdr.getD "")
                       (fun s => { s with queue := s.queue ++ [EchoEvent.manualNotif] }) },
         .sseResp "tools/call trigger_notification")
      else (st, .sseResp "tools/call trigger_notification")
    else (st, .sseResp "tools/call unknown")
  else if env.result = some EchoResult.emptyObj then
    if hdrInStore hdr st.store then
      ({ st with heap := aupd st.heap (hdr.getD "")
                     (fun s => { s with lastActivity := now }) }, .ok200)
    else (st, .ok200)
  else (st, .sseResp "method_not_found")

/-- The `if session.active:` check of the `send_ping` loop body, as its
own atomic step (the source has no lock between this check and the
following `put`): the ping thread commits to a put exactly when the
session is active at the instant of the read. -/
def sendPingCheck (sid : String) (st : EchoState) : EchoState :=
  { st with heap := aupd st.heap sid (fun s => { s with pingArmed := s.active }) }

/-- The `event_queue.put(...)` / `ping_count += 1` that follows a
passed check in `send_ping`: it fires on the earlier check's result
alone, whatever happened to the session in between. -/
def sendPingPut (sid : String) (st : EchoState) : EchoState :=
  match alookup st.heap sid with
  | none => st
  | some s =>
      if s.pingArmed then
        { st with heap := aset st.heap sid
                      { s with queue := s.queue ++ [EchoEvent.ping s.pingCount],
                               pingCount := s.pingCount + 1,
                               pingArmed := false } }
      else st

/-- The `if session.active:` check of the `send_notifications` loop
body, as its own atomic step. -/
def sendStatusCheck (sid : String) (st : EchoState) : EchoState :=
  { st with heap := aupd st.heap sid (fun s => { s with statusArmed := s.active }) }

/-- The `event_queue.put(...)` that follows a passed check in
`send_notifications`. -/
def sendStatusPut (sid : String) (st : EchoState) : EchoState :=
  match alookup st.heap sid with
  | none => st
  | some s =>
      if s.statusArmed then
        { st with heap := aset st.heap sid
                      { s with queue := s.queue ++ [EchoEvent.serverStatus],
                               statusArmed := false } }
      else st

/-- One `event_queue.put` of a spawned `send_progress` thread.  The
thread holds the `Session` object directly and does NOT check
`session.active`: the put happens whenever a spawned producer still
owes pushes, termination notwithstanding. -/
def sendProgressPush (sid : String) (st : EchoState) : EchoState :=
  match alookup st.heap sid with
  | none => st
  | some s =>
      if s.progressBudget > 0 then
        { st with heap := aset st.heap sid
                      { s with queue := s.queue ++ [EchoEvent.progressNote s.progressBudget],
                               progressBudget := s.progressBudget - 1 } }
      else st

/-- The `while session.active:` check of a `generate_events`
iteration, as its own atomic step: the generator commits to one more
body iteration exactly when the session is active at the read. -/
def drainLoopCheck (sid : String) (st : EchoState) : EchoState :=
  { st with heap := aupd st.heap sid (fun s => { s with drainArmed := s.active }) }

/-- The body of a committed `generate_events` iteration: dequeue and
yield the next event if one is queued (else a keepalive comment, which
changes no state); it runs on the earlier check's result alone, so a
termination landing between check and body does not stop this one
delivery.  Afterwards the loop returns to its check. -/
def drainYield (sid : String) (st : EchoState) : EchoState :=
  match alookup st.heap sid with
  | none => st
  | some s =>
      if s.drainArmed then
        match s.queue with
        | [] =>
            { st with heap := aset st.heap sid { s with drainArmed := false } }
        | e :: rest =>
            { st with heap := aset st.heap sid
                          { s with queue := rest, delivered := s.delivered ++ [e],
                                   drainArmed := false } }
      else st

/-- `GeneratorExit` in `generate_events`: the client disconnected; the
session object is deactivated but stays in the `sessions` dict. -/
def streamDisconnect (sid : String) (st : EchoState) : EchoState :=
  { st with heap := aupd st.heap sid (fun s => { s with active := false }) }

/-- `handle_session_termination` (DELETE /mcp): deactivate and remove
the session if the header names a stored one, else 404. -/
def echoTerminate (hdr : Option String) (st : EchoState) : EchoState × EchoOut :=
  match hdr with
  | some h =>
      if st.store.contains h then
        ({ heap := aupd st.heap h (fun s => { s with active := false }),
           store := st.store.erase h }, .ok200)
      else (st, .notFound404)
  | none => (st, .notFound404)

/-- `handle_events` (GET /mcp) admission check: absent or unknown
session header is a 404; otherwise the stream is bound to that
session. -/
def echoHandleEvents (hdr : Option String) (st : EchoState) : Option String :=
  match hdr with
  | some h => if h = "" then none else if st.store.contains h then some h else none
  | none => none

def deactSession (s : EchoSession) : EchoSession := { s with active := false }

/-- `session.active = False` through a reference obtained from the
dict (used by the reaper before deleting the entry). -/
def hdeactivate (heap : List (String × EchoSession)) (sid : String) :
    List (String × EchoSession) :=
  match alookup heap sid with
  | none => heap
  | some s => aset heap sid (deactSession s)

/-- `(now - session.last_activity).total_seconds() > 300`. -/
def reaperShouldRemove (now : Int) (heap : List (String × EchoSession))
    (sid : String) : Bool :=
  match alookup heap sid with
  | some s => decide (now - s.lastActivity > 300)
  | none => false

/-- One tick of `cleanup_inactive_sessions`: collect the over-threshold
sessions, deactivate each, and delete them from the store. -/
def reaperTick (now : Int) (st : EchoState) : EchoState :=
  { heap := (st.store.filter (reaperShouldRemove now st.heap)).foldl
      hdeactivate st.heap,
    store := st.store.filter (fun sid => !(reaperShouldRemove now st.heap sid)) }

/-- Interleavable atomic steps of the echo server.  Each loop body is
split at its unsynchronized active check, so a termination can
interleave between a check and the put/yield it guards. -/
inductive EchoOp
  | rpc (now : Int) (freshId : String) (hdr : Option String) (env : EchoEnvelope)
  | pingCheck (sid : String)
  | pingPut (sid : String)
  | statusCheck (sid : String)
  | statusPut (sid : String)
  | progressPush (sid : String)
  | drainCheck (sid : String)
  | drainBody (sid : String)
  | term (hdr : Option String)
  | reap (now : Int)
  | disconnect (sid : String)
deriving DecidableEq, Repr

def applyEchoOp : EchoOp → EchoState → EchoState
  | .rpc now freshId hdr env, st => (echoHandleRpc now freshId hdr env st).1
  | .pingCheck sid, st => sendPingCheck sid st
  | .pingPut sid, st => sendPingPut sid st
  | .statusCheck sid, st => sendStatusCheck sid st
  | .statusPut sid, st => sendStatusPut sid st
  | .progressPush sid, st => sendProgressPush sid st
  | .drainCheck sid, st => drainLoopCheck sid st
  | .drainBody sid, st => drainYield sid st
  | .term hdr, st => (echoTerminate hdr st).1
  | .reap now, st => reaperTick now st
  | .disconnect sid, st => streamDisconnect sid st

def applyEchoOps (ops : List EchoOp) (st : EchoState) : EchoState :=
  ops.foldl (fun s op => applyEchoOp op s) st

/-- Trace validity: a `generate_session_id()` result is a fresh UUID,
never colliding with any session object ever created. -/
def echoOpOk (st : EchoState) : EchoOp → Bool
  | .rpc _ freshId _ env =>
      if env.method = some "initialize" then (alookup st.heap freshId).isNone
      else true
  | _ => true

def validEchoTrace : EchoState → List EchoOp → Bool
  | _, [] => true
  | st, op :: rest => echoOpOk st op && validEchoTrace (applyEchoOp op st) rest

theorem alookup_hdeactivate_self (heap : List (String × EchoSession)) (k : String) :
    alookup (hdeactivate heap k) k = (alookup heap k).map deactSession := by
  cases hl : alookup heap k with
  | none => simp [hdeactivate, hl]
  | some s => simp [hdeactivate, hl, alookup_aset_self]

theorem alookup_hdeactivate_ne (heap : List (String × EchoSession)) (k k' : String)
    (h : k' ≠ k) :
    alookup (hdeactivate heap k) k' = alookup heap k' := by
  cases hl : alookup heap k with
  | none => simp [hdeactivate, hl]
  | some s => simp [hdeactivate, hl, alookup_aset_ne _ _ _ _ h]

theorem alookup_foldl_hdeactivate (victims : List String)
    (heap : List (String × EchoSession)) (sid : String) :
    alookup (victims.foldl hdeactivate heap) sid =
      if sid ∈ victims then (alookup heap sid).map deactSession
      else alookup heap sid := by
  induction victims generalizing heap with
  | nil => simp
  | cons v rest ih =>
    simp only [List.foldl_cons]
    rw [ih (hdeactivate heap v)]
    by_cases hv : sid = v
    · subst hv
      by_cases hr : sid ∈ rest
      · simp only [hr, if_pos, List.mem_cons, true_or, or_true,
          alookup_hdeactivate_self]
        cases alookup heap sid <;> simp [deactSession]
      · simp [hr, alookup_hdeactivate_self]
    · by_cases hr : sid ∈ rest
      · simp [hr, alookup_hdeactivate_ne heap v sid hv]
      · simp [List.mem_cons, hr, hv, alookup_hdeactivate_ne heap v sid hv]

/-- C9: one reaper tick with the fixed 300-second threshold terminates
(deactivates and removes from the store) exactly the sessions whose
`lastActivity` age strictly exceeds 300 seconds, and leaves every
younger session in the store with its record untouched. -/
theorem reaper_threshold_300 :
    ∀ (now : Int) (st : EchoState) (sid : String) (s : EchoSession),
      alookup st.heap sid = some s → sid ∈ st.store →
      ((now - s.lastActivity > 300 →
          sid ∉ (reaperTick now st).store ∧
          alookup (reaperTick now st).heap sid = some (deactSession s)) ∧
       (now - s.lastActivity ≤ 300 →
          sid ∈ (reaperTick now st).store ∧
          alookup (reaperTick now st).heap sid = some s)) := by
  intro now st sid s hl hmem
  have hpred : reaperShouldRemove now st.heap sid
      = decide (now - s.lastActivity > 300) := by
    simp [reaperShouldRemove, hl]
  constructor
  · intro hgt
    have hp : reaperShouldRemove now st.heap sid = true := by
      rw [hpred]; exact decide_eq_true hgt
    constructor
    · intro hmem2
      have := (List.mem_filter.mp hmem2).2
      rw [hp] at this
      simp at this
    · show alookup ((st.store.filter (reaperShouldRemove now st.heap)).foldl
        hdeactivate st.heap) sid = some (deactSession s)
      rw [alookup_foldl_hdeactivate]
      have hv : sid ∈ st.store.filter (reaperShouldRemove now st.heap) :=
        List.mem_filter.mpr ⟨hmem, hp⟩
      simp [hv, hl]
  · intro hle
    have hp : reaperShouldRemove now st.heap sid = false := by
      rw [hpred]
      exact decide_eq_false (not_lt.mpr hle)
    constructor
    · exact List.mem_filter.mpr ⟨hmem, by simp [hp]⟩
    · show alookup ((st.store.filter (reaperShouldRemove now st.heap)).foldl
        hdeactivate st.heap) sid = some s
      rw [alookup_foldl_hdeactivate]
      have hv : sid ∉ st.store.filter (reaperShouldRemove now st.heap) := by
        intro hmem2
        have := (List.mem_filter.mp hmem2).2
        rw [hp] at this
        simp at this
      simp [hv, hl]

def c9sessA : EchoSession := { newEchoSession 0 with lastActivity := 0 }

def c9sessB : EchoSession := { newEchoSession 0 with lastActivity := 2 }

def c9st : EchoState := { heap := [("a", c9sessA), ("b", c9sessB)], store := ["a", "b"] }

theorem reaper_threshold_300_witness :
    alookup c9st.heap "a" = some c9sessA ∧ "a" ∈ c9st.store ∧
    alookup c9st.heap "b" = some c9sessB ∧ "b" ∈ c9st.store ∧
    (301 : Int) - c9sessA.lastActivity > 300 ∧
    (301 : Int) - c9sessB.lastActivity ≤ 300 ∧
    ("a" ∉ (reaperTick 301 c9st).store ∧
     alookup (reaperTick 301 c9st).heap "a" = some (deactSession c9sessA)) ∧
    ("b" ∈ (reaperTick 301 c9st).store ∧
     alookup (reaperTick 301 c9st).heap "b" = some c9sessB) :=
  ⟨rfl, by decide, rfl, by decide, by decide, by decide,
   (reaper_threshold_300 301 c9st "a" c9sessA rfl (by decide)).1 (by decide),
   (reaper_threshold_300 301 c9st "b" c9sessB rfl (by decide)).2 (by decide)⟩

/-- The eight method names `handle_rpc` matches before the pong check. -/
def echoMethodHandled (m : Option String) : Bool :=
  decide (m = some "initialize" ∨ m = some "notifications/initialized" ∨
    m = some "tools/list" ∨ m = some "prompts/list" ∨ m = some "prompts/get" ∨
    m = some "resources/list" ∨ m = some "resources/read" ∨
    m = some "tools/call")

/-- The envelope reaches the pong branch: no known method matched and
`request_data.get('result') == {}`. -/
def isPongEnvelope (env : EchoEnvelope) : Bool :=
  !echoMethodHandled env.method &&
    decide (env.result = some EchoResult.emptyObj)


theorem aupd_char {f : EchoSession → EchoSession}
    (heap : List (String × EchoSession)) (k sid : String) (s : EchoSession)
    (hl : alookup heap sid = some s)
    (hf : ∀ x, (f x).active = x.active ∧ (f x).delivered = x.delivered ∧
      (f x).lastActivity = x.lastActivity) :
    ∃ s2, alookup (aupd heap k f) sid = some s2 ∧
      s2.active = s.active ∧ s2.delivered = s.delivered ∧
      s2.lastActivity = s.lastActivity := by
  by_cases he : sid = k
  · subst he
    rw [alookup_aupd_self, hl]
    exact ⟨f s, rfl, (hf s).1, (hf s).2.1, (hf s).2.2⟩
  · rw [alookup_aupd_ne _ _ _ _ he]
    exact ⟨s, hl, rfl, rfl, rfl⟩

/-- How one `handle_rpc` call can affect an existing session object:
it never deactivates it, never delivers from its queue, and touches
`lastActivity` exactly when the pong branch fires for that session. -/
theorem echoHandleRpc_heap_char (now : Int) (freshId : String)
    (hdr : Option String) (env : EchoEnvelope) (st : EchoState)
    (sid : String) (s : EchoSession)
    (hl : alookup st.heap sid = some s)
    (hfresh : env.method = some "initialize" → alookup st.heap freshId = none) :
    ∃ s2, alookup (echoHandleRpc now freshId hdr env st).1.heap sid = some s2 ∧
      s2.active = s.active ∧ s2.delivered = s.delivered ∧
      ((isPongEnvelope env = true ∧ hdr = some sid ∧
          st.store.contains sid = true) → s2.lastActivity = now) ∧
      (¬(isPongEnvelope env = true ∧ hdr = some sid ∧
          st.store.contains sid = true) → s2.lastActivity = s.lastActivity) := by
  unfold echoHandleRpc
  by_cases h1 : env.method = some "initialize"
  · rw [if_pos h1]
    have hne : sid ≠ freshId := by
      intro he
      rw [he, hfresh h1] at hl
      exact Option.noConfusion hl
    refine ⟨s, ?_, rfl, rfl, ?_, fun _ => rfl⟩
    · show alookup (aset st.heap freshId (newEchoSession now)) sid = some s
      rw [alookup_aset_ne _ _ _ _ hne]
      exact hl
    · rintro ⟨hp, -, -⟩
      simp [isPongEnvelope, echoMethodHandled, h1] at hp
  rw [if_neg h1]
  by_cases h2 : env.method = some "notifications/initialized"
  · rw [if_pos h2]
    by_cases hv : hdrValid hdr st.store = true
    · rw [if_pos hv]
      obtain ⟨s2, ha, hb, hc, hd⟩ :=
        @aupd_char (fun x => { x with threadsStarted := true })
          st.heap (hdr.getD "") sid s hl (fun x => ⟨rfl, rfl, rfl⟩)
      refine ⟨s2, ha, hb, hc, ?_, fun _ => hd⟩
      rintro ⟨hp, -, -⟩
      simp [isPongEnvelope, echoMethodHandled, h2] at hp
    · rw [if_neg hv]
      refine ⟨s, hl, rfl, rfl, ?_, fun _ => rfl⟩
      rintro ⟨hp, -, -⟩
      simp [isPongEnvelope, echoMethodHandled, h2] at hp
  rw [if_neg h2]
  by_cases h3 : env.method = some "tools/list"
  · rw [if_pos h3]
    refine ⟨s, hl, rfl, rfl, ?_, fun _ => rfl⟩
    rintro ⟨hp, -, -⟩
    simp [isPongEnvelope, echoMethodHandled, h3] at hp
  rw [if_neg h3]
  by_cases h4 : env.method = some "prompts/list"
  · rw [if_pos h4]
    refine ⟨s, hl, rfl, rfl, ?_, fun _ => rfl⟩
    rintro ⟨hp, -, -⟩
    simp [isPongEnvelope, echoMethodHandled, h4] at hp
  rw [if_neg h4]
  by_cases h5 : env.method = some "prompts/get"
  · rw [if_pos h5]
    refine ⟨s, hl, rfl, rfl, ?_, fun _ => rfl⟩
    rintro ⟨hp, -, -⟩
    simp [isPongEnvelope, echoMethodHandled, h5] at hp
  rw [if_neg h5]
  by_cases h6 : env.method = some "resources/list"
  · rw [if_pos h6]
    refine ⟨s, hl, rfl, rfl, ?_, fun _ => rfl⟩
    rintro ⟨hp, -, -⟩
    simp [isPongEnvelope, echoMethodHandled, h6] at hp
  rw [if_neg h6]
  by_cases h7 : env.method = some "resources/read"
  · rw [if_pos h7]
    refine ⟨s, hl, rfl, rfl, ?_, fun _ => rfl⟩
    rintro ⟨hp, -, -⟩
    simp [isPongEnvelope, echoMethodHandled, h7] at hp
  rw [if_neg h7]
  by_cases h8 : env.method = some "tools/call"
  · rw [if_pos h8]
    by_cases t1 : env.toolName = some "echo"
    · rw [if_pos t1]
      refine ⟨s, hl, rfl, rfl, ?_, fun _ => rfl⟩
      rintro ⟨hp, -, -⟩
      simp [isPongEnvelope, echoMethodHandled, h8] at hp
    rw [if_neg t1]
    by_cases t2 : env.toolName = some "long_task"
    · rw [if_pos t2]
      by_cases hin : hdrInStore hdr st.store = true
      · rw [if_pos hin]
        obtain ⟨s2, ha, hb, hc, hd⟩ :=
          @aupd_char
            (fun x => { x with
              progressBudget := x.progressBudget + env.steps.getD 5 })
            st.heap (hdr.getD "") sid s hl (fun x => ⟨rfl, rfl, rfl⟩)
        refine ⟨s2, ha, hb, hc, ?_, fun _ => hd⟩
        rintro ⟨hp, -, -⟩
        simp [isPongEnvelope, echoMethodHandled, h8] at hp
      · rw [if_neg hin]
        refine ⟨s, hl, rfl, rfl, ?_, fun _ => rfl⟩
        rintro ⟨hp, -, -⟩
        simp [isPongEnvelope, echoMethodHandled, h8] at hp
    rw [if_neg t2]
    by_cases t3 : env.toolName = some "trigger_notification"
    · rw [if_pos t3]
      by_cases hin : hdrInStore hdr st.store = true
      · rw [if_pos hin]
        obtain ⟨s2, ha, hb, hc, hd⟩ :=
          @aupd_char
            (fun x => { x with queue := x.queue ++ [EchoEvent.manualNotif] })
            st.heap (hdr.getD "") sid s hl (fun x => ⟨rfl, rfl, rfl⟩)
        refine ⟨s2, ha, hb, hc, ?_, fun _ => hd⟩
        rintro ⟨hp, -, -⟩
        simp [isPongEnvelope, echoMethodHandled, h8] at hp
      · rw [if_neg hin]
        refine ⟨s, hl, rfl, rfl, ?_, fun _ => rfl⟩
        rintro ⟨hp, -, -⟩
        simp [isPongEnvelope, echoMethodHandled, h8] at hp
    rw [if_neg t3]
    refine ⟨s, hl, rfl, rfl, ?_, fun _ => rfl⟩
    rintro ⟨hp, -, -⟩
    simp [isPongEnvelope, echoMethodHandled, h8] at hp
  rw [if_neg h8]
  by_cases hres : env.result = some EchoResult.emptyObj
  · rw [if_pos hres]
    have hpong : isPongEnvelope env = true := by
      simp [isPongEnvelope, echoMethodHandled, h1, h2, h3, h4, h5, h6, h7, h8,
        hres]
    by_cases hin : hdrInStore hdr st.store = true
    · rw [if_pos hin]
      cases hdr with
      | none => simp [hdrInStore] at hin
      | some h =>
        by_cases hh : h = sid
        · refine ⟨{ s with lastActivity := now }, ?_, rfl, rfl,
            fun _ => rfl, ?_⟩
          · show alookup (aupd st.heap ((some h).getD "")
              (fun x => { x with lastActivity := now })) sid = _
            rw [Option.getD_some, hh, alookup_aupd_self, hl]
            rfl
          · intro hneg
            have hcs : st.store.contains sid = true := by
              have hhh := hin
              simp only [hdrInStore] at hhh
              rwa [hh] at hhh
            exact absurd ⟨hpong, by rw [hh], hcs⟩ hneg
        · have hne : sid ≠ (some h).getD "" := by
            rw [Option.getD_some]
            exact fun he => hh he.symm
          refine ⟨s, ?_, rfl, rfl, ?_, fun _ => rfl⟩
          · show alookup (aupd st.heap ((some h).getD "")
              (fun x => { x with lastActivity := now })) sid = some s
            rw [alookup_aupd_ne _ _ _ _ hne]
            exact hl
          · rintro ⟨-, hh2, -⟩
            exact absurd (Option.some.inj hh2) hh
    · rw [if_neg hin]
      refine ⟨s, hl, rfl, rfl, ?_, fun _ => rfl⟩
      rintro ⟨-, hh2, hcont⟩
      exact absurd (by rw [hh2]; simpa [hdrInStore] using hcont) hin
  · rw [if_neg hres]
    refine ⟨s, hl, rfl, rfl, ?_, fun _ => rfl⟩
    rintro ⟨hp, -, -⟩
    simp [isPongEnvelope, hres] at hp

theorem echoTerminate_some (h : String) (st : EchoState) :
    echoTerminate (some h) st =
      if st.store.contains h = true then
        ({ heap := aupd st.heap h (fun x => { x with active := false }),
           store := st.store.erase h }, .ok200)
      else (st, .notFound404) := rfl

def isProgressNote : EchoEvent → Bool
  | .progressNote _ => true
  | _ => false

def isStatusEv : EchoEvent → Bool
  | .serverStatus => true
  | _ => false

/-- Number of status-notification events in a list. -/
def countStatus (l : List EchoEvent) : Nat := (l.filter isStatusEv).length

def armedBit (b : Bool) : Nat := if b then 1 else 0

theorem countStatus_append_one (l : List EchoEvent) (e : EchoEvent) :
    countStatus (l ++ [e])
      = countStatus l + (if isStatusEv e = true then 1 else 0) := by
  by_cases he : isStatusEv e = true <;>
    simp [countStatus, List.filter_append, List.filter_cons, he]

theorem countStatus_cons (e : EchoEvent) (l : List EchoEvent) :
    countStatus (e :: l)
      = (if isStatusEv e = true then 1 else 0) + countStatus l := by
  by_cases he : isStatusEv e = true <;>
    simp [countStatus, List.filter_cons, he, Nat.add_comm]

theorem hdrValid_mem (hdr : Option String) (store : List String)
    (h : hdrValid hdr store = true) :
    ∃ x, hdr = some x ∧ x ∈ store := by
  cases hdr with
  | none => simp [hdrValid] at h
  | some x =>
    refine ⟨x, rfl, ?_⟩
    simp only [hdrValid, Bool.and_eq_true] at h
    simpa using h.2

theorem hdrInStore_mem (hdr : Option String) (store : List String)
    (h : hdrInStore hdr store = true) :
    ∃ x, hdr = some x ∧ x ∈ store := by
  cases hdr with
  | none => simp [hdrInStore] at h
  | some x =>
    refine ⟨x, rfl, ?_⟩
    simpa [hdrInStore] using h

/-- Once a session id has been deleted from the `sessions` dict,
`handle_rpc` can no longer reach its object: every branch that touches
a session first finds it through the dict.  So the dead object's record
is completely unchanged, and the id never re-enters the dict (fresh
UUIDs never collide). -/
theorem echoHandleRpc_missing (now : Int) (freshId : String)
    (hdr : Option String) (env : EchoEnvelope) (st : EchoState)
    (sid : String) (s2 : EchoSession)
    (hl : alookup st.heap sid = some s2) (hs : sid ∉ st.store)
    (hfresh : env.method = some "initialize" → alookup st.heap freshId = none) :
    alookup (echoHandleRpc now freshId hdr env st).1.heap sid = some s2 ∧
    sid ∉ (echoHandleRpc now freshId hdr env st).1.store := by
  unfold echoHandleRpc
  by_cases h1 : env.method = some "initialize"
  · rw [if_pos h1]
    have hne : sid ≠ freshId := by
      intro he
      rw [he, hfresh h1] at hl
      exact Option.noConfusion hl
    constructor
    · show alookup (aset st.heap freshId (newEchoSession now)) sid = some s2
      rw [alookup_aset_ne _ _ _ _ hne]
      exact hl
    · show sid ∉ st.store ++ [freshId]
      intro hmem
      rcases List.mem_append.mp hmem with hmem | hmem
      · exact hs hmem
      · exact hne (List.mem_singleton.mp hmem)
  rw [if_neg h1]
  by_cases h2 : env.method = some "notifications/initialized"
  · rw [if_pos h2]
    by_cases hv : hdrValid hdr st.store = true
    · rw [if_pos hv]
      obtain ⟨x, hx, hm⟩ := hdrValid_mem hdr st.store hv
      have hne : sid ≠ hdr.getD "" := by
        rw [hx, Option.getD_some]
        exact fun he => hs (he ▸ hm)
      constructor
      · show alookup (aupd st.heap (hdr.getD "") _) sid = some s2
        rw [alookup_aupd_ne _ _ _ _ hne]
        exact hl
      · exact hs
    · rw [if_neg hv]
      exact ⟨hl, hs⟩
  rw [if_neg h2]
  by_cases h3 : env.method = some "tools/list"
  · rw [if_pos h3]
    exact ⟨hl, hs⟩
  rw [if_neg h3]
  by_cases h4 : env.method = some "prompts/list"
  · rw [if_pos h4]
    exact ⟨hl, hs⟩
  rw [if_neg h4]
  by_cases h5 : env.method = some "prompts/get"
  · rw [if_pos h5]
    exact ⟨hl, hs⟩
  rw [if_neg h5]
  by_cases h6 : env.method = some "resources/list"
  · rw [if_pos h6]
    exact ⟨hl, hs⟩
  rw [if_neg h6]
  by_cases h7 : env.method = some "resources/read"
  · rw [if_pos h7]
    exact ⟨hl, hs⟩
  rw [if_neg h7]
  by_cases h8 : env.method = some "tools/call"
  · rw [if_pos h8]
    by_cases t1 : env.toolName = some "echo"
    · rw [if_pos t1]
      exact ⟨hl, hs⟩
    rw [if_neg t1]
    by_cases t2 : env.toolName = some "long_task"
    · rw [if_pos t2]
      by_cases hin : hdrInStore hdr st.store = true
      · rw [if_pos hin]
        obtain ⟨x, hx, hm⟩ := hdrInStore_mem hdr st.store hin
        have hne : sid ≠ hdr.getD "" := by
          rw [hx, Option.getD_some]
          exact fun he => hs (he ▸ hm)
        constructor
        · show alookup (aupd st.heap (hdr.getD "") _) sid = some s2
          rw [alookup_aupd_ne _ _ _ _ hne]
          exact hl
        · exact hs
      · rw [if_neg hin]
        exact ⟨hl, hs⟩
    rw [if_neg t2]
    by_cases t3 : env.toolName = some "trigger_notification"
    · rw [if_pos t3]
      by_cases hin : hdrInStore hdr st.store = true
      · rw [if_pos hin]
        obtain ⟨x, hx, hm⟩ := hdrInStore_mem hdr st.store hin
        have hne : sid ≠ hdr.getD "" := by
          rw [hx, Option.getD_some]
          exact fun he => hs (he ▸ hm)
        constructor
        · show alookup (aupd st.heap (hdr.getD "") _) sid = some s2
          rw [alookup_aupd_ne _ _ _ _ hne]
          exact hl
        · exact hs
      · rw [if_neg hin]
        exact ⟨hl, hs⟩
    rw [if_neg t3]
    exact ⟨hl, hs⟩
  rw [if_neg h8]
  by_cases hres : env.result = some EchoResult.emptyObj
  · rw [if_pos hres]
    by_cases hin : hdrInStore hdr st.store = true
    · rw [if_pos hin]
      obtain ⟨x, hx, hm⟩ := hdrInStore_mem hdr st.store hin
      have hne : sid ≠ hdr.getD "" := by
        rw [hx, Option.getD_some]
        exact fun he => hs (he ▸ hm)
      constructor
      · show alookup (aupd st.heap (hdr.getD "") _) sid = some s2
        rw [alookup_aupd_ne _ _ _ _ hne]
        exact hl
      · exact hs
    · rw [if_neg hin]
      exact ⟨hl, hs⟩
  · rw [if_neg hres]
    exact ⟨hl, hs⟩

theorem sendPingPut_store (sid : String) (st : EchoState) :
    (sendPingPut sid st).store = st.store := by
  unfold sendPingPut
  split
  · rfl
  · split <;> rfl

theorem sendStatusPut_store (sid : String) (st : EchoState) :
    (sendStatusPut sid st).store = st.store := by
  unfold sendStatusPut
  split
  · rfl
  · split <;> rfl

theorem sendProgressPush_store (sid : String) (st : EchoState) :
    (sendProgressPush sid st).store = st.store := by
  unfold sendProgressPush
  split
  · rfl
  · split <;> rfl

theorem drainYield_store (sid : String) (st : EchoState) :
    (drainYield sid st).store = st.store := by
  unfold drainYield
  split
  · rfl
  · split
    · split <;> rfl
    · rfl

/-- One step taken after a session's termination: the id never
re-enters the store, the object stays inactive, each loop can spend its
at-most-one in-flight (armed) iteration but never re-arm — giving the
conservation bounds on deliveries, pings and status events — and if no
iteration was in flight, the record is frozen except for progress-note
pushes from the unguarded `send_progress` producer. -/
theorem applyEchoOp_after_term (op : EchoOp) (st : EchoState) (sid : String)
    (s2 : EchoSession) (hok : echoOpOk st op = true)
    (hl : alookup st.heap sid = some s2) (ha : s2.active = false)
    (hs : sid ∉ st.store) :
    sid ∉ (applyEchoOp op st).store ∧
    ∃ s3, alookup (applyEchoOp op st).heap sid = some s3 ∧
      s3.active = false ∧
      s3.delivered.length + armedBit s3.drainArmed
        ≤ s2.delivered.length + armedBit s2.drainArmed ∧
      s3.pingCount + armedBit s3.pingArmed
        ≤ s2.pingCount + armedBit s2.pingArmed ∧
      countStatus s3.queue + countStatus s3.delivered + armedBit s3.statusArmed
        ≤ countStatus s2.queue + countStatus s2.delivered
            + armedBit s2.statusArmed ∧
      (s2.pingArmed = false → s2.statusArmed = false → s2.drainArmed = false →
        s3.delivered = s2.delivered ∧ s3.pingCount = s2.pingCount ∧
        s3.pingArmed = false ∧ s3.statusArmed = false ∧ s3.drainArmed = false ∧
        ∃ extra, s3.queue = s2.queue ++ extra ∧
          ∀ e ∈ extra, isProgressNote e = true) := by
  cases op with
  | rpc now freshId hdr env =>
    have hfresh : env.method = some "initialize" →
        alookup st.heap freshId = none := by
      intro hm
      have h2 := hok
      simp only [echoOpOk, hm, if_pos] at h2
      exact Option.isNone_iff_eq_none.mp h2
    obtain ⟨g1, g2⟩ := echoHandleRpc_missing now freshId hdr env st sid s2 hl hs
      hfresh
    refine ⟨g2, s2, g1, ha, Nat.le_refl _, Nat.le_refl _, Nat.le_refl _, ?_⟩
    intro hp hq hd
    exact ⟨rfl, rfl, hp, hq, hd, [], (List.append_nil _).symm, by simp⟩
  | pingCheck sid2 =>
    refine ⟨hs, ?_⟩
    by_cases he : sid = sid2
    · subst he
      refine ⟨{ s2 with pingArmed := s2.active }, ?_, ha, ?_, ?_, ?_, ?_⟩
      · show alookup (aupd st.heap sid _) sid = _
        rw [alookup_aupd_self, hl]
        rfl
      · exact Nat.le_refl _
      · show s2.pingCount + armedBit s2.active ≤ _
        rw [ha]
        exact Nat.le_add_right _ _
      · exact Nat.le_refl _
      · intro hp hq hd
        exact ⟨rfl, rfl, ha, hq, hd, [], (List.append_nil _).symm, by simp⟩
    · refine ⟨s2, ?_, ha, Nat.le_refl _, Nat.le_refl _, Nat.le_refl _, ?_⟩
      · show alookup (aupd st.heap sid2 _) sid = some s2
        rw [alookup_aupd_ne _ _ _ _ he]
        exact hl
      · intro hp hq hd
        exact ⟨rfl, rfl, hp, hq, hd, [], (List.append_nil _).symm, by simp⟩
  | pingPut sid2 =>
    constructor
    · show sid ∉ (sendPingPut sid2 st).store
      rw [sendPingPut_store]
      exact hs
    simp only [applyEchoOp, sendPingPut]
    split
    · exact ⟨s2, hl, ha, Nat.le_refl _, Nat.le_refl _, Nat.le_refl _,
        fun hp hq hd =>
          ⟨rfl, rfl, hp, hq, hd, [], (List.append_nil _).symm, by simp⟩⟩
    next s0 hl2 =>
      split
      next harmed =>
        by_cases he : sid = sid2
        · subst he
          rw [hl] at hl2
          cases hl2
          refine ⟨{ s2 with
              queue := s2.queue ++ [EchoEvent.ping s2.pingCount],
              pingCount := s2.pingCount + 1,
              pingArmed := false }, ?_, ha, Nat.le_refl _, ?_, ?_, ?_⟩
          · show alookup (aset st.heap sid _) sid = _
            rw [alookup_aset_self]
          · show s2.pingCount + 1 + armedBit false
                ≤ s2.pingCount + armedBit s2.pingArmed
            rw [harmed]
            simp [armedBit]
          · show countStatus (s2.queue ++ [EchoEvent.ping s2.pingCount])
                + countStatus s2.delivered + armedBit s2.statusArmed ≤ _
            rw [countStatus_append_one]
            simp [isStatusEv]
          · intro hp hq hd
            rw [hp] at harmed
            exact Bool.noConfusion harmed
        · refine ⟨s2, ?_, ha, Nat.le_refl _, Nat.le_refl _, Nat.le_refl _, ?_⟩
          · show alookup (aset st.heap sid2 _) sid = some s2
            rw [alookup_aset_ne _ _ _ _ he]
            exact hl
          · intro hp hq hd
            exact ⟨rfl, rfl, hp, hq, hd, [], (List.append_nil _).symm, by simp⟩
      next =>
        exact ⟨s2, hl, ha, Nat.le_refl _, Nat.le_refl _, Nat.le_refl _,
          fun hp hq hd =>
            ⟨rfl, rfl, hp, hq, hd, [], (List.append_nil _).symm, by simp⟩⟩
  | statusCheck sid2 =>
    refine ⟨hs, ?_⟩
    by_cases he : sid = sid2
    · subst he
      refine ⟨{ s2 with statusArmed := s2.active }, ?_, ha, Nat.le_refl _,
        Nat.le_refl _, ?_, ?_⟩
      · show alookup (aupd st.heap sid _) sid = _
        rw [alookup_aupd_self, hl]
        rfl
      · show countStatus s2.queue + countStatus s2.delivered
            + armedBit s2.active ≤ _
        rw [ha]
        exact Nat.le_add_right _ _
      · intro hp hq hd
        exact ⟨rfl, rfl, hp, ha, hd, [], (List.append_nil _).symm, by simp⟩
    · refine ⟨s2, ?_, ha, Nat.le_refl _, Nat.le_refl _, Nat.le_refl _, ?_⟩
      · show alookup (aupd st.heap sid2 _) sid = some s2
        rw [alookup_aupd_ne _ _ _ _ he]
        exact hl
      · intro hp hq hd
        exact ⟨rfl, rfl, hp, hq, hd, [], (List.append_nil _).symm, by simp⟩
  | statusPut sid2 =>
    constructor
    · show sid ∉ (sendStatusPut sid2 st).store
      rw [sendStatusPut_store]
      exact hs
    simp only [applyEchoOp, sendStatusPut]
    split
    · exact ⟨s2, hl, ha, Nat.le_refl _, Nat.le_refl _, Nat.le_refl _,
        fun hp hq hd =>
          ⟨rfl, rfl, hp, hq, hd, [], (List.append_nil _).symm, by simp⟩⟩
    next s0 hl2 =>
      split
      next harmed =>
        by_cases he : sid = sid2
        · subst he
          rw [hl] at hl2
          cases hl2
          refine ⟨{ s2 with
              queue := s2.queue ++ [EchoEvent.serverStatus],
              statusArmed := false }, ?_, ha, Nat.le_refl _, Nat.le_refl _,
            ?_, ?_⟩
          · show alookup (aset st.heap sid _) sid = _
            rw [alookup_aset_self]
          · show countStatus (s2.queue ++ [EchoEvent.serverStatus])
                + countStatus s2.delivered + armedBit false
                ≤ countStatus s2.queue + countStatus s2.delivered
                    + armedBit s2.statusArmed
            rw [countStatus_append_one, harmed]
            simp [isStatusEv, armedBit]
            omega
          · intro hp hq hd
            rw [hq] at harmed
            exact Bool.noConfusion harmed
        · refine ⟨s2, ?_, ha, Nat.le_refl _, Nat.le_refl _, Nat.le_refl _, ?_⟩
          · show alookup (aset st.heap sid2 _) sid = some s2
            rw [alookup_aset_ne _ _ _ _ he]
            exact hl
          · intro hp hq hd
            exact ⟨rfl, rfl, hp, hq, hd, [], (List.append_nil _).symm, by simp⟩
      next =>
        exact ⟨s2, hl, ha, Nat.le_refl _, Nat.le_refl _, Nat.le_refl _,
          fun hp hq hd =>
            ⟨rfl, rfl, hp, hq, hd, [], (List.append_nil _).symm, by simp⟩⟩
  | progressPush sid2 =>
    constructor
    · show sid ∉ (sendProgressPush sid2 st).store
      rw [sendProgressPush_store]
      exact hs
    simp only [applyEchoOp, sendProgressPush]
    split
    · exact ⟨s2, hl, ha, Nat.le_refl _, Nat.le_refl _, Nat.le_refl _,
        fun hp hq hd =>
          ⟨rfl, rfl, hp, hq, hd, [], (List.append_nil _).symm, by simp⟩⟩
    next s0 hl2 =>
      split
      next hb =>
        by_cases he : sid = sid2
        · subst he
          rw [hl] at hl2
          cases hl2
          refine ⟨{ s2 with
              queue := s2.queue ++ [EchoEvent.progressNote s2.progressBudget],
              progressBudget := s2.progressBudget - 1 }, ?_, ha,
            Nat.le_refl _, Nat.le_refl _, ?_, ?_⟩
          · show alookup (aset st.heap sid _) sid = _
            rw [alookup_aset_self]
          · show countStatus
                (s2.queue ++ [EchoEvent.progressNote s2.progressBudget])
                + countStatus s2.delivered + armedBit s2.statusArmed ≤ _
            rw [countStatus_append_one]
            simp [isStatusEv]
          · intro hp hq hd
            exact ⟨rfl, rfl, hp, hq, hd,
              [EchoEvent.progressNote s2.progressBudget], rfl, by
                simp [isProgressNote]⟩
        · refine ⟨s2, ?_, ha, Nat.le_refl _, Nat.le_refl _, Nat.le_refl _, ?_⟩
          · show alookup (aset st.heap sid2 _) sid = some s2
            rw [alookup_aset_ne _ _ _ _ he]
            exact hl
          · intro hp hq hd
            exact ⟨rfl, rfl, hp, hq, hd, [], (List.append_nil _).symm, by simp⟩
      next =>
        exact ⟨s2, hl, ha, Nat.le_refl _, Nat.le_refl _, Nat.le_refl _,
          fun hp hq hd =>
            ⟨rfl, rfl, hp, hq, hd, [], (List.append_nil _).symm, by simp⟩⟩
  | drainCheck sid2 =>
    refine ⟨hs, ?_⟩
    by_cases he : sid = sid2
    · subst he
      refine ⟨{ s2 with drainArmed := s2.active }, ?_, ha, ?_, Nat.le_refl _,
        Nat.le_refl _, ?_⟩
      · show alookup (aupd st.heap sid _) sid = _
        rw [alookup_aupd_self, hl]
        rfl
      · show s2.delivered.length + armedBit s2.active ≤ _
        rw [ha]
        exact Nat.le_add_right _ _
      · intro hp hq hd
        exact ⟨rfl, rfl, hp, hq, ha, [], (List.append_nil _).symm, by simp⟩
    · refine ⟨s2, ?_, ha, Nat.le_refl _, Nat.le_refl _, Nat.le_refl _, ?_⟩
      · show alookup (aupd st.heap sid2 _) sid = some s2
        rw [alookup_aupd_ne _ _ _ _ he]
        exact hl
      · intro hp hq hd
        exact ⟨rfl, rfl, hp, hq, hd, [], (List.append_nil _).symm, by simp⟩
  | drainBody sid2 =>
    constructor
    · show sid ∉ (drainYield sid2 st).store
      rw [drainYield_store]
      exact hs
    simp only [applyEchoOp, drainYield]
    split
    · exact ⟨s2, hl, ha, Nat.le_refl _, Nat.le_refl _, Nat.le_refl _,
        fun hp hq hd =>
          ⟨rfl, rfl, hp, hq, hd, [], (List.append_nil _).symm, by simp⟩⟩
    next s0 hl2 =>
      split
      next harmed =>
        split
        next hq0 =>
          by_cases he : sid = sid2
          · subst he
            rw [hl] at hl2
            cases hl2
            refine ⟨{ s2 with drainArmed := false }, ?_, ha, ?_,
              Nat.le_refl _, Nat.le_refl _, ?_⟩
            · show alookup (aset st.heap sid _) sid = _
              rw [alookup_aset_self]
            · show s2.delivered.length + armedBit false
                  ≤ s2.delivered.length + armedBit s2.drainArmed
              simp [armedBit]
            · intro hp hq hd
              rw [hd] at harmed
              exact Bool.noConfusion harmed
          · refine ⟨s2, ?_, ha, Nat.le_refl _, Nat.le_refl _,
              Nat.le_refl _, ?_⟩
            · show alookup (aset st.heap sid2 _) sid = some s2
              rw [alookup_aset_ne _ _ _ _ he]
              exact hl
            · intro hp hq hd
              exact ⟨rfl, rfl, hp, hq, hd, [], (List.append_nil _).symm,
                by simp⟩
        next e rest hq0 =>
          by_cases he : sid = sid2
          · subst he
            rw [hl] at hl2
            cases hl2
            refine ⟨{ s2 with
                queue := rest,
                delivered := s2.delivered ++ [e],
                drainArmed := false }, ?_, ha, ?_, Nat.le_refl _, ?_, ?_⟩
            · show alookup (aset st.heap sid _) sid = _
              rw [alookup_aset_self]
            · show (s2.delivered ++ [e]).length + armedBit false
                  ≤ s2.delivered.length + armedBit s2.drainArmed
              rw [harmed]
              simp [armedBit]
            · show countStatus rest + countStatus (s2.delivered ++ [e])
                  + armedBit s2.statusArmed
                  ≤ countStatus s2.queue + countStatus s2.delivered
                      + armedBit s2.statusArmed
              rw [hq0, countStatus_cons, countStatus_append_one]
              omega
            · intro hp hq hd
              rw [hd] at harmed
              exact Bool.noConfusion harmed
          · refine ⟨s2, ?_, ha, Nat.le_refl _, Nat.le_refl _,
              Nat.le_refl _, ?_⟩
            · show alookup (aset st.heap sid2 _) sid = some s2
              rw [alookup_aset_ne _ _ _ _ he]
              exact hl
            · intro hp hq hd
              exact ⟨rfl, rfl, hp, hq, hd, [], (List.append_nil _).symm,
                by simp⟩
      next =>
        exact ⟨s2, hl, ha, Nat.le_refl _, Nat.le_refl _, Nat.le_refl _,
          fun hp hq hd =>
            ⟨rfl, rfl, hp, hq, hd, [], (List.append_nil _).symm, by simp⟩⟩
  | term hdr =>
    cases hdr with
    | none =>
      exact ⟨hs, s2, hl, ha, Nat.le_refl _, Nat.le_refl _, Nat.le_refl _,
        fun hp hq hd =>
          ⟨rfl, rfl, hp, hq, hd, [], (List.append_nil _).symm, by simp⟩⟩
    | some h =>
      have hgoal : applyEchoOp (EchoOp.term (some h)) st
          = (echoTerminate (some h) st).1 := rfl
      rw [hgoal, echoTerminate_some]
      by_cases hc : st.store.contains h = true
      · rw [if_pos hc]
        have hmemh : h ∈ st.store := by simpa using hc
        have hne : sid ≠ h := fun he => hs (he ▸ hmemh)
        constructor
        · show sid ∉ st.store.erase h
          intro hmem
          exact hs (List.mem_of_mem_erase hmem)
        · refine ⟨s2, ?_, ha, Nat.le_refl _, Nat.le_refl _, Nat.le_refl _, ?_⟩
          · show alookup (aupd st.heap h _) sid = some s2
            rw [alookup_aupd_ne _ _ _ _ hne]
            exact hl
          · intro hp hq hd
            exact ⟨rfl, rfl, hp, hq, hd, [], (List.append_nil _).symm, by simp⟩
      · rw [if_neg hc]
        exact ⟨hs, s2, hl, ha, Nat.le_refl _, Nat.le_refl _, Nat.le_refl _,
          fun hp hq hd =>
            ⟨rfl, rfl, hp, hq, hd, [], (List.append_nil _).symm, by simp⟩⟩
  | reap now =>
    constructor
    · show sid ∉ st.store.filter _
      intro hmem
      exact hs (List.mem_filter.mp hmem).1
    · have hv : sid ∉ st.store.filter (reaperShouldRemove now st.heap) := by
        intro hmem
        exact hs (List.mem_filter.mp hmem).1
      refine ⟨s2, ?_, ha, Nat.le_refl _, Nat.le_refl _, Nat.le_refl _, ?_⟩
      · show alookup ((st.store.filter (reaperShouldRemove now st.heap)).foldl
            hdeactivate st.heap) sid = some s2
        rw [alookup_foldl_hdeactivate, if_neg hv]
        exact hl
      · intro hp hq hd
        exact ⟨rfl, rfl, hp, hq, hd, [], (List.append_nil _).symm, by simp⟩
  | disconnect sid2 =>
    refine ⟨hs, ?_⟩
    by_cases he : sid = sid2
    · subst he
      refine ⟨{ s2 with active := false }, ?_, rfl, Nat.le_refl _,
        Nat.le_refl _, Nat.le_refl _, ?_⟩
      · show alookup (aupd st.heap sid _) sid = _
        rw [alookup_aupd_self, hl]
        rfl
      · intro hp hq hd
        exact ⟨rfl, rfl, hp, hq, hd, [], (List.append_nil _).symm, by simp⟩
    · refine ⟨s2, ?_, ha, Nat.le_refl _, Nat.le_refl _, Nat.le_refl _, ?_⟩
      · show alookup (aupd st.heap sid2 _) sid = some s2
        rw [alookup_aupd_ne _ _ _ _ he]
        exact hl
      · intro hp hq hd
        exact ⟨rfl, rfl, hp, hq, hd, [], (List.append_nil _).symm, by simp⟩

/-- Composition of `applyEchoOp_after_term` over a whole valid trace:
once the id is out of the store and the object inactive, every
interleaving keeps it so, delivers at most the one event of an
in-flight drain iteration, enqueues at most the one ping of an
in-flight keepalive iteration and at most the one status event of an
in-flight notification iteration, and — when no iteration was in
flight — freezes the record except for progress-note pushes. -/
theorem validEchoTrace_after_term (ops : List EchoOp) (st : EchoState)
    (sid : String) (s2 : EchoSession)
    (hv : validEchoTrace st ops = true)
    (hl : alookup st.heap sid = some s2) (ha : s2.active = false)
    (hs : sid ∉ st.store) :
    sid ∉ (applyEchoOps ops st).store ∧
    ∃ s3, alookup (applyEchoOps ops st).heap sid = some s3 ∧
      s3.active = false ∧
      s3.delivered.length + armedBit s3.drainArmed
        ≤ s2.delivered.length + armedBit s2.drainArmed ∧
      s3.pingCount + armedBit s3.pingArmed
        ≤ s2.pingCount + armedBit s2.pingArmed ∧
      countStatus s3.queue + countStatus s3.delivered + armedBit s3.statusArmed
        ≤ countStatus s2.queue + countStatus s2.delivered
            + armedBit s2.statusArmed ∧
      (s2.pingArmed = false → s2.statusArmed = false → s2.drainArmed = false →
        s3.delivered = s2.delivered ∧ s3.pingCount = s2.pingCount ∧
        s3.pingArmed = false ∧ s3.statusArmed = false ∧ s3.drainArmed = false ∧
        ∃ extra, s3.queue = s2.queue ++ extra ∧
          ∀ e ∈ extra, isProgressNote e = true) := by
  induction ops generalizing st s2 with
  | nil =>
    exact ⟨hs, s2, hl, ha, Nat.le_refl _, Nat.le_refl _, Nat.le_refl _,
      fun hp hq hd =>
        ⟨rfl, rfl, hp, hq, hd, [], (List.append_nil _).symm, by simp⟩⟩
  | cons op rest ih =>
    have hv2 : echoOpOk st op = true
        ∧ validEchoTrace (applyEchoOp op st) rest = true := by
      simpa [validEchoTrace, Bool.and_eq_true] using hv
    obtain ⟨hok, hvr⟩ := hv2
    obtain ⟨g1, s3, g2, g3, g4, g5, g6, g7⟩ :=
      applyEchoOp_after_term op st sid s2 hok hl ha hs
    have happ : applyEchoOps (op :: rest) st
        = applyEchoOps rest (applyEchoOp op st) := rfl
    rw [happ]
    obtain ⟨k1, s4, k2, k3, k4, k5, k6, k7⟩ :=
      ih (applyEchoOp op st) s3 hvr g2 g3 g1
    refine ⟨k1, s4, k2, k3, Nat.le_trans k4 g4, Nat.le_trans k5 g5,
      Nat.le_trans k6 g6, ?_⟩
    intro hp hq hd
    obtain ⟨e1, e2, e3, e4, e5, extra1, e6, e7⟩ := g7 hp hq hd
    obtain ⟨f1, f2, f3, f4, f5, extra2, f6, f7⟩ := k7 e3 e4 e5
    refine ⟨f1.trans e1, f2.trans e2, f3, f4, f5, extra1 ++ extra2, ?_, ?_⟩
    · rw [f6, e6, List.append_assoc]
    · intro ev hev
      rcases List.mem_append.mp hev with hmem | hmem
      · exact e7 ev hmem
      · exact f7 ev hmem

/-- C2 (amended): once `handle_session_termination` succeeds (200) for
a stored session, the id never re-enters the store and the object
stays inactive forever; the producers are total, so none receives an
error.  But the drop is not immediate: each of the three
`session.active`-guarded loops (keepalive ping, status notification,
event drain) may have one iteration in flight past its unsynchronized
check, and that single iteration can still enqueue one ping, enqueue
one status event, or deliver one already-queued event after the 200 —
never more, since after termination every further check disarms the
loop.  When no iteration is in flight at termination the session
record is frozen entirely, except that spawned `long_task` progress
producers, which never check `session.active`, keep enqueuing progress
notes into the defunct object; those are never delivered, the drain
loop being dead. -/
theorem push_after_terminate_amended (h : String) (st : EchoState)
    (s : EchoSession) (hl : alookup st.heap h = some s)
    (hc : st.store.contains h = true) (hnd : st.store.Nodup) :
    (echoTerminate (some h) st).2 = EchoOut.ok200 ∧
    ∀ ops, validEchoTrace (echoTerminate (some h) st).1 ops = true →
      h ∉ (applyEchoOps ops (echoTerminate (some h) st).1).store ∧
      ∃ s3, alookup (applyEchoOps ops (echoTerminate (some h) st).1).heap h
          = some s3 ∧
        s3.active = false ∧
        s3.delivered.length + armedBit s3.drainArmed
          ≤ s.delivered.length + armedBit s.drainArmed ∧
        s3.pingCount + armedBit s3.pingArmed
          ≤ s.pingCount + armedBit s.pingArmed ∧
        countStatus s3.queue + countStatus s3.delivered
            + armedBit s3.statusArmed
          ≤ countStatus s.queue + countStatus s.delivered
              + armedBit s.statusArmed ∧
        (s.pingArmed = false → s.statusArmed = false → s.drainArmed = false →
          s3.delivered = s.delivered ∧ s3.pingCount = s.pingCount ∧
          ∃ extra, s3.queue = s.queue ++ extra ∧
            ∀ e ∈ extra, isProgressNote e = true) := by
  constructor
  · rw [echoTerminate_some, if_pos hc]
  · intro ops hv
    have hst1 : (echoTerminate (some h) st).1
        = { heap := aupd st.heap h (fun x => { x with active := false }),
            store := st.store.erase h } := by
      rw [echoTerminate_some, if_pos hc]
    have hl1 : alookup (echoTerminate (some h) st).1.heap h
        = some { s with active := false } := by
      rw [hst1]
      show alookup (aupd st.heap h _) h = _
      rw [alookup_aupd_self, hl]
      rfl
    have hs1 : h ∉ (echoTerminate (some h) st).1.store := by
      rw [hst1]
      intro hmem
      exact ((hnd.mem_erase_iff).mp hmem).1 rfl
    obtain ⟨g1, s3, g2, g3, g4, g5, g6, g7⟩ :=
      validEchoTrace_after_term ops (echoTerminate (some h) st).1 h
        { s with active := false } hv hl1 rfl hs1
    refine ⟨g1, s3, g2, g3, g4, g5, g6, ?_⟩
    intro hp hq hd
    obtain ⟨e1, e2, e3, e4, e5, extra, e6, e7⟩ := g7 hp hq hd
    exact ⟨e1, e2, extra, e6, e7⟩

/-- A stored session with every loop in flight past its check and one
progress push owed: the worst case for the post-termination bounds. -/
def c2wSess : EchoSession :=
  { newEchoSession 0 with queue := [EchoEvent.manualNotif],
                          progressBudget := 1, pingArmed := true,
                          statusArmed := true, drainArmed := true }

def c2wSt : EchoState := { heap := [("s", c2wSess)], store := ["s"] }

def c2wOps : List EchoOp :=
  [EchoOp.progressPush "s", EchoOp.pingCheck "s", EchoOp.pingPut "s",
   EchoOp.statusPut "s", EchoOp.drainCheck "s", EchoOp.drainBody "s"]

theorem push_after_terminate_amended_witness :
    alookup c2wSt.heap "s" = some c2wSess ∧
    c2wSt.store.contains "s" = true ∧
    c2wSt.store.Nodup ∧
    validEchoTrace (echoTerminate (some "s") c2wSt).1 c2wOps = true ∧
    (echoTerminate (some "s") c2wSt).2 = EchoOut.ok200 ∧
    "s" ∉ (applyEchoOps c2wOps (echoTerminate (some "s") c2wSt).1).store := by
  have hmain := push_after_terminate_amended "s" c2wSt c2wSess rfl rfl
    (by decide)
  exact ⟨rfl, rfl, by decide, rfl, hmain.1, (hmain.2 c2wOps rfl).1⟩

def c2envInit : EchoEnvelope :=
  { method := some "initialize", rid := some 1, result := none,
    toolName := none, steps := none }

def c2envLong : EchoEnvelope :=
  { method := some "tools/call", rid := some 2, result := none,
    toolName := some "long_task", steps := some 1 }

def c2envTrig : EchoEnvelope :=
  { method := some "tools/call", rid := some 3, result := none,
    toolName := some "trigger_notification", steps := none }

def c2st0 : EchoState := { heap := [], store := [] }

/-- After `initialize`: one active session `"s"`. -/
def c2st1 : EchoState := (echoHandleRpc 0 "s" none c2envInit c2st0).1

/-- ... then `tools/call long_task` with one step owed. -/
def c2stL : EchoState := (echoHandleRpc 1 "u" (some "s") c2envLong c2st1).1

/-- ... or instead `tools/call trigger_notification`: one queued
event. -/
def c2stT : EchoState := (echoHandleRpc 2 "u" (some "s") c2envTrig c2st1).1

/-- C2 counterexample, three concrete races against the claim as
stated.  (a) a spawned `long_task` progress producer pushes after the
DELETE returned 200 and the event IS queued; (b) the keepalive loop
passes its `if session.active` check, the DELETE lands and returns
200, and the pending `put` still enqueues `ping 0`; (c) an event is
queued, the drain generator passes its `while session.active` check,
the DELETE returns 200, and the committed iteration still DELIVERS the
event on the stream.  Each refutes "it is not queued" or "it is never
delivered". -/
theorem push_after_terminate_cex :
    ((echoTerminate (some "s") c2stL).2 = EchoOut.ok200 ∧
      (alookup (sendProgressPush "s"
          (echoTerminate (some "s") c2stL).1).heap "s").map EchoSession.queue
        = some [EchoEvent.progressNote 1]) ∧
    ((echoTerminate (some "s") (sendPingCheck "s" c2st1)).2
        = EchoOut.ok200 ∧
      (alookup (sendPingPut "s"
          (echoTerminate (some "s")
            (sendPingCheck "s" c2st1)).1).heap "s").map EchoSession.queue
        = some [EchoEvent.ping 0]) ∧
    ((echoTerminate (some "s") (drainLoopCheck "s" c2stT)).2
        = EchoOut.ok200 ∧
      (alookup (drainYield "s"
          (echoTerminate (some "s")
            (drainLoopCheck "s" c2stT)).1).heap "s").map
          EchoSession.delivered
        = some [EchoEvent.manualNotif]) := by
  refine ⟨⟨rfl, ?_⟩, ⟨rfl, ?_⟩, ⟨rfl, ?_⟩⟩ <;> rfl
/-- C7 (amended): `handle_rpc` updates a session's `lastActivity` only
on the pong branch — an envelope matching none of the eight handled
methods whose `result` is exactly the empty object, carrying the
session's id.  Every other inbound message attributable to the session
(tools/list, tools/call, prompts, resources, notifications/initialized)
leaves `lastActivity` unchanged. -/
theorem last_activity_updated_only_on_pong :
    ∀ (now : Int) (freshId : String) (hdr : Option String)
      (env : EchoEnvelope) (st : EchoState) (sid : String) (s : EchoSession),
      alookup st.heap sid = some s →
      alookup st.heap freshId = none →
      ((isPongEnvelope env = false →
          ∃ s2, alookup (echoHandleRpc now freshId hdr env st).1.heap sid
              = some s2 ∧
            s2.lastActivity = s.lastActivity) ∧
       (isPongEnvelope env = true → hdr = some sid →
          st.store.contains sid = true →
          ∃ s2, alookup (echoHandleRpc now freshId hdr env st).1.heap sid
              = some s2 ∧
            s2.lastActivity = now)) := by
  intro now freshId hdr env st sid s hl hfresh
  obtain ⟨s2, g1, -, -, gpos, gneg⟩ :=
    echoHandleRpc_heap_char now freshId hdr env st sid s hl (fun _ => hfresh)
  constructor
  · intro hnp
    refine ⟨s2, g1, gneg ?_⟩
    rintro ⟨hp, -, -⟩
    rw [hnp] at hp
    exact Bool.noConfusion hp
  · intro hp hh hcont
    exact ⟨s2, g1, gpos ⟨hp, hh, hcont⟩⟩

def c7sess : EchoSession := { newEchoSession 100 with lastActivity := 100 }

def c7st : EchoState := { heap := [("s", c7sess)], store := ["s"] }

def c7envList : EchoEnvelope :=
  { method := some "tools/list", rid := some 3, result := none,
    toolName := none, steps := none }

def c7envPong : EchoEnvelope :=
  { method := none, rid := some 0, result := some EchoResult.emptyObj,
    toolName := none, steps := none }

theorem last_activity_updated_only_on_pong_witness :
    alookup c7st.heap "s" = some c7sess ∧
    alookup c7st.heap "g" = none ∧
    isPongEnvelope c7envPong = true ∧
    c7st.store.contains "s" = true ∧
    (∃ s2, alookup (echoHandleRpc 500 "g" (some "s") c7envPong c7st).1.heap "s"
        = some s2 ∧ s2.lastActivity = 500) :=
  ⟨rfl, rfl, by decide, rfl,
   (last_activity_updated_only_on_pong 500 "g" (some "s") c7envPong c7st "s"
      c7sess rfl rfl).2 (by decide) rfl rfl⟩

/-- C7 (counterexample): a `tools/list` request carrying a live
session's id is handled at time 500, yet the session's `lastActivity`
stays at its old value 100 — `handle_rpc` touches the timestamp only
in the pong branch, so "every inbound message attributable to the
session updates lastActivity" is false. -/
theorem last_activity_not_updated_on_tools_list_cex :
    (alookup (echoHandleRpc 500 "g" (some "s") c7envList c7st).1.heap "s").map
        EchoSession.lastActivity = some 100 ∧
    (100 : Int) ≠ 500 :=
  ⟨rfl, by decide⟩

/-!
## Elicitation streamable server
(`examples/elicitation/elicitation_streamable_server.py`)

Embeds the per-session correlation state (`elicitation_events`,
`elicitation_responses`), `request_elicitation` (split at its blocking
point into `beginWait` and the two wake outcomes `wakeSuccess` /
`wakeTimeout`), the two inbound resolution paths (`resolveSse` for the
id-without-method branch of `handle_sse_rpc`, `resolveStreamable` for
the `elicitation/response` method branch), the routing logic of
`handle_sse_rpc` and its session-selection fallback, and
`handle_events` of the echo server for the connect direction.

Python dict keys are arbitrary values: correlation maps are keyed by
`Option RpcId`, where `none` is Python `None` and `RpcId` a JSON-RPC
id (number or string; elicitation ids are UUID strings in practice).
A `threading.Event` is a boolean flag: `events` maps a correlation
key to its flag; `Event.wait(timeout)` returns the flag at expiry, so
`wakeSuccess` is enabled exactly when the flag is set and
`wakeTimeout` exactly when it is still clear at the 120 s expiry.
Answers carry the `action` string and a `content` assoc list; the
synthesized timeout answer `{"action": "cancel"}` has no content key,
modelled as an empty content list (handlers only inspect `action`).
Dispatcher branches other than `elicitation/response` and the unknown
method error queue labelled response events: their payloads are demo
content no claim inspects.
-/

inductive RpcId
  | num (n : Int)
  | str (s : String)
deriving DecidableEq, Repr

/-- Python truthiness of a JSON-RPC id (`if rpc_id`): 0 and the empty
string are falsy. -/
def RpcId.truthy : RpcId → Bool
  | .num n => !(n == 0)
  | .str s => !(s == "")

abbrev ElicKey := Option RpcId

/-- Python truthiness of an optional string (`if method`). -/
def optStrTruthy : Option String → Bool
  | some s => !(s == "")
  | none => false

structure ElicAnswer where
  action : Option String
  content : List (String × String)
deriving DecidableEq, Repr

/-- The synthesized timeout answer `{"action": "cancel"}`. -/
def cancelAnswer : ElicAnswer := { action := some "cancel", content := [] }

/-- `data.get('result', {})`. -/
def emptyAnswer : ElicAnswer := { action := none, content := [] }

inductive ElicEvent
  | elicitRequest (k : ElicKey)
  | responseEvent (rid : ElicKey) (kind : String)
  | errorEvent (rid : ElicKey) (code : Int) (msg : String)
deriving DecidableEq, Repr

/-- One `Session` object of the elicitation server. -/
structure ElicSession where
  createdAt : Int
  lastActivity : Int
  queue : List ElicEvent
  active : Bool
  events : List (ElicKey × Bool)
  responses : List (ElicKey × ElicAnswer)
deriving DecidableEq, Repr

def newElicSession (now : Int) : ElicSession :=
  { createdAt := now, lastActivity := now, queue := [], active := true,
    events := [], responses := [] }

/-- First half of `request_elicitation`: allocate the wait handle for a
fresh UUID `u`, register the (unset) event, and push the
`elicitation/create` request onto the session's queue. -/
def beginWait (u : String) (s : ElicSession) : ElicSession :=
  { s with events := aset s.events (some (.str u)) false,
           queue := s.queue ++ [ElicEvent.elicitRequest (some (.str u))] }

/-- The id-without-method branch of `handle_sse_rpc`: store the raw
`result` under the reply's id and set the matching wait's event if one
is registered; always answers 202, never fails. -/
def resolveSse (k : ElicKey) (res : ElicAnswer) (s : ElicSession) : ElicSession :=
  let s1 := { s with responses := aset s.responses k res }
  if (alookup s1.events k).isSome then
    { s1 with events := aset s1.events k true }
  else s1

/-- The `elicitation/response` method branch: store
`{'action': action, 'content': content}` and set the matching event if
registered; always answers 202. -/
def resolveStreamable (k : ElicKey) (action : Option String)
    (content : List (String × String)) (s : ElicSession) : ElicSession :=
  let s1 := { s with
    responses := aset s.responses k { action := action, content := content } }
  if (alookup s1.events k).isSome then
    { s1 with events := aset s1.events k true }
  else s1

/-- Success path of `request_elicitation` (`response_event.wait`
returned True): read the stored answer, then delete both the wait
handle and the stored response. -/
def wakeSuccess (k : ElicKey) (s : ElicSession) :
    ElicSession × Option ElicAnswer :=
  ({ s with events := adel s.events k, responses := adel s.responses k },
   alookup s.responses k)

/-- Timeout path of `request_elicitation`: delete the wait handle and
hand the waiting handler the synthesized cancel answer. -/
def wakeTimeout (k : ElicKey) (s : ElicSession) : ElicSession × ElicAnswer :=
  ({ s with events := adel s.events k }, cancelAnswer)

/-- Atomic steps touching one session's correlation state. -/
inductive ElicOp
  | begin (u : String)
  | resolveS (k : ElicKey) (res : ElicAnswer)
  | resolveM (k : ElicKey) (action : Option String)
      (content : List (String × String))
  | wake (k : ElicKey)
  | timeout (k : ElicKey)
deriving DecidableEq, Repr

def applyElicOp : ElicOp → ElicSession → ElicSession
  | .begin u, s => beginWait u s
  | .resolveS k res, s => resolveSse k res s
  | .resolveM k a c, s => resolveStreamable k a c s
  | .wake k, s => (wakeSuccess k s).1
  | .timeout k, s => (wakeTimeout k s).1

/-- Does this step resolve the wait with key `k` (either outcome)? -/
def resolvesKey (k : ElicKey) : ElicOp → Bool
  | .wake k2 => k2 == k
  | .timeout k2 => k2 == k
  | _ => false

/-- Number of resolutions of key `k` in a trace. -/
def countRes (k : ElicKey) (ops : List ElicOp) : Nat :=
  (ops.filter (resolvesKey k)).length

def kmem (k : ElicKey) : List ElicKey → Bool
  | [] => false
  | k2 :: rest => k2 == k || kmem k rest

/-- Step enabledness: `begin` consumes a globally fresh UUID (`used`
accumulates every id ever allocated); a wake fires exactly when its
event flag is set, a timeout exactly when the flag is still clear at
expiry.  The two resolve steps are always enabled (the inbound path
never precondition-checks). -/
def elicOpOk (s : ElicSession) (used : List ElicKey) : ElicOp → Bool
  | .begin u => !(kmem (some (.str u)) used)
  | .wake k => alookup s.events k == some true
  | .timeout k => alookup s.events k == some false
  | _ => true

def usedAfter (used : List ElicKey) : ElicOp → List ElicKey
  | .begin u => some (.str u) :: used
  | _ => used

def elicValid : ElicSession → List ElicKey → List ElicOp → Bool
  | _, _, [] => true
  | s, used, op :: rest =>
      elicOpOk s used op && elicValid (applyElicOp op s) (usedAfter used op) rest

theorem aset_cons_self {κ α : Type} [DecidableEq κ]
    (k0 : κ) (v0 v : α) (tl : List (κ × α)) :
    aset ((k0, v0) :: tl) k0 v = (k0, v) :: tl := by
  simp [aset]

theorem aset_cons_ne {κ α : Type} [DecidableEq κ]
    (k0 k : κ) (v0 v : α) (tl : List (κ × α)) (h : ¬ k0 = k) :
    aset ((k0, v0) :: tl) k v = (k0, v0) :: aset tl k v := by
  simp [aset, h]

theorem adel_cons_self {κ α : Type} [DecidableEq κ]
    (k0 : κ) (v0 : α) (tl : List (κ × α)) :
    adel ((k0, v0) :: tl) k0 = tl := by
  simp [adel]

theorem adel_cons_ne {κ α : Type} [DecidableEq κ]
    (k0 k : κ) (v0 : α) (tl : List (κ × α)) (h : ¬ k0 = k) :
    adel ((k0, v0) :: tl) k = (k0, v0) :: adel tl k := by
  simp [adel, h]

theorem mem_keys_aset {κ α : Type} [DecidableEq κ]
    (l : List (κ × α)) (k : κ) (v : α) (a : κ)
    (h : a ∈ (aset l k v).map Prod.fst) : a ∈ l.map Prod.fst ∨ a = k := by
  induction l with
  | nil =>
    simp only [aset, List.map_cons, List.map_nil] at h
    rcases List.mem_cons.mp h with h1 | h1
    · exact Or.inr h1
    · exact absurd h1 (List.not_mem_nil a)
  | cons hd tl ih =>
    obtain ⟨k0, v0⟩ := hd
    by_cases h0 : k0 = k
    · rw [h0, aset_cons_self, List.map_cons] at h
      rcases List.mem_cons.mp h with h1 | h1
      · exact Or.inr h1
      · exact Or.inl (by rw [List.map_cons]; exact List.mem_cons.mpr (Or.inr h1))
    · rw [aset_cons_ne k0 k v0 v tl h0, List.map_cons] at h
      rcases List.mem_cons.mp h with h1 | h1
      · exact Or.inl (by rw [List.map_cons]; exact List.mem_cons.mpr (Or.inl h1))
      · rcases ih h1 with h2 | h2
        · exact Or.inl
            (by rw [List.map_cons]; exact List.mem_cons.mpr (Or.inr h2))
        · exact Or.inr h2

theorem keysNodup_cons {κ α : Type} (k : κ) (v : α) (tl : List (κ × α)) :
    keysNodup ((k, v) :: tl) ↔ k ∉ tl.map Prod.fst ∧ keysNodup tl := by
  simp [keysNodup, List.nodup_cons]

theorem keysNodup_aset {κ α : Type} [DecidableEq κ]
    (l : List (κ × α)) (k : κ) (v : α) (h : keysNodup l) :
    keysNodup (aset l k v) := by
  induction l with
  | nil => simp [aset, keysNodup]
  | cons hd tl ih =>
    obtain ⟨k0, v0⟩ := hd
    rw [keysNodup_cons] at h
    by_cases h0 : k0 = k
    · rw [h0, aset_cons_self, keysNodup_cons]
      rw [h0] at h
      exact ⟨h.1, h.2⟩
    · rw [aset_cons_ne k0 k v0 v tl h0, keysNodup_cons]
      refine ⟨?_, ih h.2⟩
      intro hm
      rcases mem_keys_aset tl k v k0 hm with h2 | h2
      · exact h.1 h2
      · exact h0 h2

theorem mem_keys_adel {κ α : Type} [DecidableEq κ]
    (l : List (κ × α)) (k : κ) (a : κ)
    (h : a ∈ (adel l k).map Prod.fst) : a ∈ l.map Prod.fst := by
  induction l with
  | nil => simp [adel] at h
  | cons hd tl ih =>
    obtain ⟨k0, v0⟩ := hd
    by_cases h0 : k0 = k
    · rw [h0, adel_cons_self] at h
      rw [List.map_cons]
      exact List.mem_cons.mpr (Or.inr h)
    · rw [adel_cons_ne k0 k v0 tl h0, List.map_cons] at h
      rw [List.map_cons]
      rcases List.mem_cons.mp h with h1 | h1
      · exact List.mem_cons.mpr (Or.inl h1)
      · exact List.mem_cons.mpr (Or.inr (ih h1))

theorem keysNodup_adel {κ α : Type} [DecidableEq κ]
    (l : List (κ × α)) (k : κ) (h : keysNodup l) : keysNodup (adel l k) := by
  induction l with
  | nil => simpa [adel] using h
  | cons hd tl ih =>
    obtain ⟨k0, v0⟩ := hd
    rw [keysNodup_cons] at h
    by_cases h0 : k0 = k
    · rw [h0, adel_cons_self]
      exact h.2
    · rw [adel_cons_ne k0 k v0 tl h0, keysNodup_cons]
      exact ⟨fun hm => h.1 (mem_keys_adel tl k k0 hm), ih h.2⟩

/-- The inductive invariant of a session's wait table: its keys are
distinct (each UUID is registered once) and every registered key was
allocated by some `begin`. -/
def ElicInv (s : ElicSession) (used : List ElicKey) : Prop :=
  keysNodup s.events ∧
  ∀ k, (alookup s.events k).isSome = true → kmem k used = true

theorem resolveSse_events_isSome (k2 : ElicKey) (res : ElicAnswer)
    (s : ElicSession) (k : ElicKey) :
    (alookup (resolveSse k2 res s).events k).isSome
      = (alookup s.events k).isSome := by
  simp only [resolveSse]
  by_cases hp : (alookup s.events k2).isSome = true
  · rw [if_pos hp]
    by_cases he : k = k2
    · rw [he, alookup_aset_self]
      simp [hp]
    · rw [alookup_aset_ne _ _ _ _ he]
  · rw [if_neg hp]

theorem resolveSse_events_nodup (k2 : ElicKey) (res : ElicAnswer)
    (s : ElicSession) (h : keysNodup s.events) :
    keysNodup (resolveSse k2 res s).events := by
  simp only [resolveSse]
  by_cases hp : (alookup s.events k2).isSome = true
  · rw [if_pos hp]
    exact keysNodup_aset _ _ _ h
  · rw [if_neg hp]
    exact h

theorem resolveStreamable_events_isSome (k2 : ElicKey) (a : Option String)
    (c : List (String × String)) (s : ElicSession) (k : ElicKey) :
    (alookup (resolveStreamable k2 a c s).events k).isSome
      = (alookup s.events k).isSome := by
  simp only [resolveStreamable]
  by_cases hp : (alookup s.events k2).isSome = true
  · rw [if_pos hp]
    by_cases he : k = k2
    · rw [he, alookup_aset_self]
      simp [hp]
    · rw [alookup_aset_ne _ _ _ _ he]
  · rw [if_neg hp]

theorem resolveStreamable_events_nodup (k2 : ElicKey) (a : Option String)
    (c : List (String × String)) (s : ElicSession) (h : keysNodup s.events) :
    keysNodup (resolveStreamable k2 a c s).events := by
  simp only [resolveStreamable]
  by_cases hp : (alookup s.events k2).isSome = true
  · rw [if_pos hp]
    exact keysNodup_aset _ _ _ h
  · rw [if_neg hp]
    exact h

theorem elicInv_step (op : ElicOp) (s : ElicSession) (used : List ElicKey)
    (hok : elicOpOk s used op = true) (hinv : ElicInv s used) :
    ElicInv (applyElicOp op s) (usedAfter used op) := by
  obtain ⟨hnd, hmem⟩ := hinv
  cases op with
  | begin u =>
    constructor
    · exact keysNodup_aset _ _ _ hnd
    · intro k hk
      show kmem k (some (.str u) :: used) = true
      by_cases he : k = some (.str u)
      · simp [kmem, he]
      · have hk2 : (alookup s.events k).isSome = true := by
          rwa [show (applyElicOp (ElicOp.begin u) s).events
              = aset s.events (some (.str u)) false from rfl,
            alookup_aset_ne _ _ _ _ he] at hk
        simp [kmem, hmem k hk2]
  | resolveS k2 res =>
    exact ⟨resolveSse_events_nodup k2 res s hnd,
      fun k hk => hmem k ((resolveSse_events_isSome k2 res s k) ▸ hk)⟩
  | resolveM k2 a c =>
    exact ⟨resolveStreamable_events_nodup k2 a c s hnd,
      fun k hk => hmem k ((resolveStreamable_events_isSome k2 a c s k) ▸ hk)⟩
  | wake k2 =>
    constructor
    · exact keysNodup_adel _ _ hnd
    · intro k hk
      by_cases he : k = k2
      · rw [show (applyElicOp (ElicOp.wake k2) s).events
            = adel s.events k2 from rfl, ← he,
          alookup_adel_self _ _ hnd] at hk
        exact absurd hk (by simp)
      · rw [show (applyElicOp (ElicOp.wake k2) s).events
            = adel s.events k2 from rfl,
          alookup_adel_ne _ _ _ he] at hk
        exact hmem k hk
  | timeout k2 =>
    constructor
    · exact keysNodup_adel _ _ hnd
    · intro k hk
      by_cases he : k = k2
      · rw [show (applyElicOp (ElicOp.timeout k2) s).events
            = adel s.events k2 from rfl, ← he,
          alookup_adel_self _ _ hnd] at hk
        exact absurd hk (by simp)
      · rw [show (applyElicOp (ElicOp.timeout k2) s).events
            = adel s.events k2 from rfl,
          alookup_adel_ne _ _ _ he] at hk
        exact hmem k hk

/-- The budget of remaining resolutions for key `k`: one while the
wait is pending or not yet allocated, zero once resolved. -/
def resBound (s : ElicSession) (used : List ElicKey) (k : ElicKey) : Nat :=
  if kmem k used = true then
    (if (alookup s.events k).isSome = true then 1 else 0)
  else 1

theorem resBound_le_one (s : ElicSession) (used : List ElicKey) (k : ElicKey) :
    resBound s used k ≤ 1 := by
  unfold resBound
  split
  · split <;> omega
  · omega

theorem resBound_step (op : ElicOp) (s : ElicSession) (used : List ElicKey)
    (k : ElicKey) (hok : elicOpOk s used op = true) (hinv : ElicInv s used) :
    (if resolvesKey k op = true then 1 else 0)
      + resBound (applyElicOp op s) (usedAfter used op) k
      ≤ resBound s used k := by
  obtain ⟨hnd, hmem⟩ := hinv
  cases op with
  | begin u =>
    have hc0 : (if resolvesKey k (ElicOp.begin u) = true then 1 else 0) = 0 :=
      rfl
    rw [hc0, Nat.zero_add]
    by_cases he : k = some (.str u)
    · have hku : kmem k used = false := by
        have h3 := hok
        simp only [elicOpOk, Bool.not_eq_true'] at h3
        rw [he]
        exact h3
      have hb : resBound s used k = 1 := by
        unfold resBound
        rw [hku]
        simp
      rw [hb]
      exact resBound_le_one _ _ _
    · have h1 : kmem k (usedAfter used (ElicOp.begin u)) = kmem k used := by
        show kmem k (some (.str u) :: used) = kmem k used
        have hb2 : ((some (RpcId.str u) : ElicKey) == k) = false := by
          rw [beq_eq_false_iff_ne]
          exact fun hh => he hh.symm
        simp [kmem, hb2]
      have h2 : alookup (applyElicOp (ElicOp.begin u) s).events k
          = alookup s.events k := by
        rw [show (applyElicOp (ElicOp.begin u) s).events
            = aset s.events (some (.str u)) false from rfl]
        exact alookup_aset_ne _ _ _ _ he
      unfold resBound
      rw [h1, h2]
  | resolveS k2 res =>
    have hc0 :
        (if resolvesKey k (ElicOp.resolveS k2 res) = true then 1 else 0) = 0 :=
      rfl
    rw [hc0, Nat.zero_add]
    have h2 : (alookup (applyElicOp (ElicOp.resolveS k2 res) s).events k).isSome
        = (alookup s.events k).isSome := resolveSse_events_isSome k2 res s k
    unfold resBound
    rw [h2]
    exact Nat.le_refl _
  | resolveM k2 a c =>
    have hc0 :
        (if resolvesKey k (ElicOp.resolveM k2 a c) = true then 1 else 0) = 0 :=
      rfl
    rw [hc0, Nat.zero_add]
    have h2 :
        (alookup (applyElicOp (ElicOp.resolveM k2 a c) s).events k).isSome
          = (alookup s.events k).isSome :=
      resolveStreamable_events_isSome k2 a c s k
    unfold resBound
    rw [h2]
    exact Nat.le_refl _
  | wake k2 =>
    by_cases he : k2 = k
    · have hc1 : (if resolvesKey k (ElicOp.wake k2) = true then 1 else 0) = 1 := by
        simp [resolvesKey, he]
      have heq : alookup s.events k2 = some true := by
        have h3 := hok
        simp only [elicOpOk] at h3
        exact eq_of_beq h3
      have heqk : alookup s.events k = some true := he ▸ heq
      have hksome : (alookup s.events k).isSome = true := by rw [heqk]; rfl
      have hkm : kmem k used = true := hmem k hksome
      have hbefore : resBound s used k = 1 := by
        unfold resBound
        rw [hkm, hksome]
        simp
      have hafter :
          resBound (applyElicOp (ElicOp.wake k2) s)
            (usedAfter used (ElicOp.wake k2)) k = 0 := by
        unfold resBound
        have h4 : alookup (applyElicOp (ElicOp.wake k2) s).events k = none := by
          rw [show (applyElicOp (ElicOp.wake k2) s).events
              = adel s.events k2 from rfl, he]
          exact alookup_adel_self _ _ hnd
        rw [show usedAfter used (ElicOp.wake k2) = used from rfl, hkm, h4]
        simp
      rw [hc1, hbefore, hafter]
    · have hb : (k2 == k) = false := by
        rw [beq_eq_false_iff_ne]
        exact he
      have hc0 : (if resolvesKey k (ElicOp.wake k2) = true then 1 else 0) = 0 := by
        simp [resolvesKey, hb]
      rw [hc0, Nat.zero_add]
      have h2 : alookup (applyElicOp (ElicOp.wake k2) s).events k
          = alookup s.events k := by
        rw [show (applyElicOp (ElicOp.wake k2) s).events
            = adel s.events k2 from rfl]
        exact alookup_adel_ne _ _ _ (fun hh => he hh.symm)
      unfold resBound
      rw [h2]
      exact Nat.le_refl _
  | timeout k2 =>
    by_cases he : k2 = k
    · have hc1 :
          (if resolvesKey k (ElicOp.timeout k2) = true then 1 else 0) = 1 := by
        simp [resolvesKey, he]
      have heq : alookup s.events k2 = some false := by
        have h3 := hok
        simp only [elicOpOk] at h3
        exact eq_of_beq h3
      have heqk : alookup s.events k = some false := he ▸ heq
      have hksome : (alookup s.events k).isSome = true := by rw [heqk]; rfl
      have hkm : kmem k used = true := hmem k hksome
      have hbefore : resBound s used k = 1 := by
        unfold resBound
        rw [hkm, hksome]
        simp
      have hafter :
          resBound (applyElicOp (ElicOp.timeout k2) s)
            (usedAfter used (ElicOp.timeout k2)) k = 0 := by
        unfold resBound
        have h4 :
            alookup (applyElicOp (ElicOp.timeout k2) s).events k = none := by
          rw [show (applyElicOp (ElicOp.timeout k2) s).events
              = adel s.events k2 from rfl, he]
          exact alookup_adel_self _ _ hnd
        rw [show usedAfter used (ElicOp.timeout k2) = used from rfl, hkm, h4]
        simp
      rw [hc1, hbefore, hafter]
    · have hb : (k2 == k) = false := by
        rw [beq_eq_false_iff_ne]
        exact he
      have hc0 :
          (if resolvesKey k (ElicOp.timeout k2) = true then 1 else 0) = 0 := by
        simp [resolvesKey, hb]
      rw [hc0, Nat.zero_add]
      have h2 : alookup (applyElicOp (ElicOp.timeout k2) s).events k
          = alookup s.events k := by
        rw [show (applyElicOp (ElicOp.timeout k2) s).events
            = adel s.events k2 from rfl]
        exact alookup_adel_ne _ _ _ (fun hh => he hh.symm)
      unfold resBound
      rw [h2]
      exact Nat.le_refl _

theorem countRes_le_resBound :
    ∀ (ops : List ElicOp) (s : ElicSession) (used : List ElicKey)
      (k : ElicKey),
      elicValid s used ops = true → ElicInv s used →
      countRes k ops ≤ resBound s used k := by
  intro ops
  induction ops with
  | nil =>
    intro s used k _ _
    exact Nat.zero_le _
  | cons op rest ih =>
    intro s used k hv hinv
    simp only [elicValid, Bool.and_eq_true] at hv
    have hstep := resBound_step op s used k hv.1 hinv
    have hrec := ih (applyElicOp op s) (usedAfter used op) k hv.2
      (elicInv_step op s used hv.1 hinv)
    have hcount : countRes k (op :: rest)
        = (if resolvesKey k op = true then 1 else 0) + countRes k rest := by
      by_cases hr : resolvesKey k op = true
      · simp [countRes, List.filter_cons, hr, Nat.add_comm]
      · simp [countRes, List.filter_cons, hr]
    omega

/-- C1: in every valid interleaving of elicitation steps starting from
a fresh session, each correlation id is resolved at most once (and,
whenever its wait is pending, exactly one of the two resolving steps —
client answer or timeout — is enabled, so timing picks whichever
arrives first); the timeout path hands the waiting handler the
synthesized cancel answer and removes the entry from the wait-handle
table; and a resolution attempt for an id with no registered wait is a
no-op on the wait-handle table that wakes no waiter and never fails
(both inbound resolution paths are total and answer 202). -/
theorem elicitation_resolved_exactly_once :
    ∀ (ops : List ElicOp) (k : ElicKey),
      elicValid (newElicSession 0) [] ops = true →
      countRes k ops ≤ 1 ∧
      (∀ (s : ElicSession) (used : List ElicKey) (b : Bool),
         alookup s.events k = some b →
         (b = true → elicOpOk s used (.wake k) = true) ∧
         (b = false → elicOpOk s used (.timeout k) = true)) ∧
      (∀ s : ElicSession, keysNodup s.events →
         (wakeTimeout k s).2 = cancelAnswer ∧
         alookup (wakeTimeout k s).1.events k = none) ∧
      (∀ (s : ElicSession) (res : ElicAnswer) (a : Option String)
         (c : List (String × String)),
         alookup s.events k = none →
         (resolveSse k res s).events = s.events ∧
         (resolveStreamable k a c s).events = s.events) := by
  intro ops k hv
  refine ⟨?_, ?_, ?_, ?_⟩
  · have hinv : ElicInv (newElicSession 0) [] := by
      constructor
      · simp [keysNodup, newElicSession]
      · intro k2 h2
        simp [newElicSession, alookup] at h2
    have hb := countRes_le_resBound ops (newElicSession 0) [] k hv hinv
    have h1 : resBound (newElicSession 0) [] k = 1 := by
      unfold resBound
      simp [kmem]
    rw [h1] at hb
    exact hb
  · intro s used b hb
    constructor
    · intro hbv
      rw [hbv] at hb
      simp [elicOpOk, hb]
    · intro hbv
      rw [hbv] at hb
      simp [elicOpOk, hb]
  · intro s hnd2
    exact ⟨rfl, alookup_adel_self _ _ hnd2⟩
  · intro s res a c hnone
    constructor
    · have hcond : ¬((alookup s.events k).isSome = true) := by
        rw [hnone]
        simp
      simp only [resolveSse]
      rw [if_neg hcond]
    · have hcond : ¬((alookup s.events k).isSome = true) := by
        rw [hnone]
        simp
      simp only [resolveStreamable]
      rw [if_neg hcond]

def c1ops : List ElicOp :=
  [.begin "e1",
   .resolveM (some (.str "e1")) (some "accept") [("title", "T")],
   .wake (some (.str "e1"))]

theorem elicitation_resolved_exactly_once_witness :
    elicValid (newElicSession 0) [] c1ops = true ∧
    countRes (some (.str "e1")) c1ops ≤ 1 :=
  ⟨by decide,
   (elicitation_resolved_exactly_once c1ops (some (.str "e1")) (by decide)).1⟩

/-- The parts of an inbound POST /sse body that `handle_sse_rpc`
inspects. -/
structure ElicParams where
  elicitationId : ElicKey
  action : Option String
  content : List (String × String)
  name : Option String
deriving DecidableEq, Repr

structure SseEnvelope where
  method : Option String
  id : ElicKey
  result : Option ElicAnswer
  params : ElicParams
deriving DecidableEq, Repr

/-- Which component of `handle_sse_rpc` handled the envelope. -/
inductive SseRoute
  | notifAck
  | correlationReply
  | dispatched (m : Option String)
deriving DecidableEq, Repr

def methodNotFoundMsg (m : Option String) : String :=
  "Method not found: " ++ (match m with | some s => s | none => "None")

/-- The method-table part of `handle_sse_rpc` (everything after the
notification and reply branches).  Branch structure and queue/session
effects are faithful; the payloads of the catalog branches and the
synchronous tool execution inside `tools/call` are labels, since no
claim inspects them.  The `elicitation/response` branch is
`resolveStreamable`; the final branch queues the method-not-found
error response. -/
def dispatchSse (env : SseEnvelope) (s : ElicSession) :
    ElicSession × SseRoute :=
  if env.method = some "initialize" then
    ({ s with queue := s.queue ++ [ElicEvent.responseEvent env.id "initialize"] },
     .dispatched env.method)
  else if env.method = some "tools/list" then
    ({ s with queue := s.queue ++ [ElicEvent.responseEvent env.id "tools/list"] },
     .dispatched env.method)
  else if env.method = some "tools/call" then
    ({ s with queue := s.queue ++ [ElicEvent.responseEvent env.id "tools/call"] },
     .dispatched env.method)
  else if env.method = some "elicitation/response" then
    (resolveStreamable env.params.elicitationId env.params.action
      env.params.content s,
     .dispatched env.method)
  else if env.method = some "ping" then
    ({ s with queue := s.queue ++ [ElicEvent.responseEvent env.id "ping"] },
     .dispatched env.method)
  else
    ({ s with queue := s.queue
        ++ [ElicEvent.errorEvent env.id (-32601) (methodNotFoundMsg env.method)] },
     .dispatched env.method)

/-- The routing prelude of `handle_sse_rpc`:
`if method and rpc_id is None` → notification (202, nothing queued);
`if rpc_id and not method` → reply to a server-initiated request,
handed to the correlation table (`resolveSse` with
`data.get('result', {})`); everything else → the method table. -/
def routeSse (env : SseEnvelope) (s : ElicSession) : ElicSession × SseRoute :=
  if optStrTruthy env.method && env.id.isNone then (s, .notifAck)
  else
    match env.id with
    | some i =>
        if i.truthy && !(optStrTruthy env.method) then
          (resolveSse (some i) (env.result.getD emptyAnswer) s,
           .correlationReply)
        else dispatchSse env s
    | none => dispatchSse env s

theorem routeSse_correlation (m : Option String) (i : RpcId)
    (r : Option ElicAnswer) (p : ElicParams) (s : ElicSession)
    (ht : i.truthy = true) (hm : optStrTruthy m = false) :
    routeSse ⟨m, some i, r, p⟩ s
      = (resolveSse (some i) (r.getD emptyAnswer) s, .correlationReply) := by
  unfold routeSse
  simp [ht, hm]

theorem resolveSse_queue (k : ElicKey) (res : ElicAnswer) (s : ElicSession) :
    (resolveSse k res s).queue = s.queue := by
  simp only [resolveSse]
  split <;> rfl

theorem resolveSse_responses (k : ElicKey) (res : ElicAnswer)
    (s : ElicSession) :
    (resolveSse k res s).responses = aset s.responses k res := by
  simp only [resolveSse]
  split <;> rfl

theorem resolveSse_events_pending (k : ElicKey) (res : ElicAnswer)
    (s : ElicSession) (b : Bool) (hb : alookup s.events k = some b) :
    alookup (resolveSse k res s).events k = some true := by
  have hp : (alookup s.events k).isSome = true := by rw [hb]; rfl
  simp only [resolveSse]
  rw [if_pos hp]
  exact alookup_aset_self _ _ _

theorem resolveSse_events_missing (k : ElicKey) (res : ElicAnswer)
    (s : ElicSession) (hn : alookup s.events k = none) :
    (resolveSse k res s).events = s.events := by
  have hcond : ¬((alookup s.events k).isSome = true) := by
    rw [hn]
    simp
  simp only [resolveSse]
  rw [if_neg hcond]

/-- C5 (amended): an inbound envelope whose id is truthy (non-zero,
non-empty — elicitation ids are UUID strings, hence always truthy) and
whose method is absent or empty is handed to the correlation table:
the raw result (or `{}` when absent) is stored under the reply's id,
the matching wait's event is set when one is registered, nothing is
queued, and the dispatcher's method table is not invoked — no
method-not-found or other method response is produced.  An envelope
whose id is falsy (e.g. the number 0) instead falls through to the
dispatcher (see the companion counterexample). -/
theorem truthy_reply_routed_to_correlation :
    ∀ (m : Option String) (i : RpcId) (r : Option ElicAnswer)
      (p : ElicParams) (s : ElicSession),
      i.truthy = true → optStrTruthy m = false →
      (routeSse ⟨m, some i, r, p⟩ s).2 = .correlationReply ∧
      (∀ m2, (routeSse ⟨m, some i, r, p⟩ s).2 ≠ .dispatched m2) ∧
      (routeSse ⟨m, some i, r, p⟩ s).1.queue = s.queue ∧
      (routeSse ⟨m, some i, r, p⟩ s).1.responses
        = aset s.responses (some i) (r.getD emptyAnswer) ∧
      (∀ b, alookup s.events (some i) = some b →
        alookup (routeSse ⟨m, some i, r, p⟩ s).1.events (some i) = some true) ∧
      (alookup s.events (some i) = none →
        (routeSse ⟨m, some i, r, p⟩ s).1.events = s.events) := by
  intro m i r p s ht hm
  rw [routeSse_correlation m i r p s ht hm]
  refine ⟨rfl, fun m2 h => SseRoute.noConfusion h, resolveSse_queue _ _ _,
    resolveSse_responses _ _ _, ?_, ?_⟩
  · intro b hb
    exact resolveSse_events_pending _ _ _ b hb
  · intro hn
    exact resolveSse_events_missing _ _ _ hn

def c5sess : ElicSession :=
  { newElicSession 0 with events := [(some (.str "e1"), false)] }

def c5ans : ElicAnswer := { action := some "accept", content := [] }

def c5params : ElicParams :=
  { elicitationId := none, action := none, content := [], name := none }

def c5envGood : SseEnvelope :=
  { method := none, id := some (.str "e1"), result := some c5ans,
    params := c5params }

def c5envZero : SseEnvelope :=
  { method := none, id := some (.num 0), result := some c5ans,
    params := c5params }

theorem truthy_reply_routed_to_correlation_witness :
    (RpcId.str "e1").truthy = true ∧
    optStrTruthy none = false ∧
    (routeSse c5envGood c5sess).2 = .correlationReply ∧
    (routeSse c5envGood c5sess).1.queue = c5sess.queue :=
  ⟨rfl, rfl,
   (truthy_reply_routed_to_correlation none (.str "e1") (some c5ans) c5params
      c5sess rfl rfl).1,
   (truthy_reply_routed_to_correlation none (.str "e1") (some c5ans) c5params
      c5sess rfl rfl).2.2.1⟩

/-- C5 (counterexample): the envelope `{id: 0, result: ..., no method}`
has an id and a result field and no method, yet it is NOT routed to the
correlation table: `if rpc_id and not method` is false for the falsy
id 0, the dispatcher's method table IS invoked, a method-not-found
error response is queued, and the wait table is left alone. -/
theorem zero_id_reply_hits_dispatcher_cex :
    (routeSse c5envZero c5sess).2 = .dispatched none ∧
    (routeSse c5envZero c5sess).1.queue
      = [ElicEvent.errorEvent (some (.num 0)) (-32601) "Method not found: None"] ∧
    (routeSse c5envZero c5sess).1.events = c5sess.events :=
  ⟨rfl, rfl, rfl⟩

inductive SelectKind
  | existing
  | fallbackActive
  | created
deriving DecidableEq, Repr

/-- `for sid, sess in sessions.items(): if sess.active: ... break` —
the first active session in dict insertion order. -/
def firstActive : List (String × ElicSession) → Option (String × ElicSession)
  | [] => none
  | (sid, s) :: rest => if s.active then some (sid, s) else firstActive rest

/-- The fallback of `handle_sse_rpc`'s session selection: adopt the
first active session, else create a brand-new one under a fresh id. -/
def sseFallback (store : List (String × ElicSession)) (freshId : String)
    (now : Int) : List (String × ElicSession) × String × SelectKind :=
  match firstActive store with
  | some (sid, _) => (store, sid, .fallbackActive)
  | none => (aset store freshId (newElicSession now), freshId, .created)

/-- Session selection of `handle_sse_rpc` (POST /sse):
`if session_id and session_id in sessions` use it, otherwise fall back —
an absent, empty or unknown header is never rejected. -/
def selectSession (hdr : Option String) (store : List (String × ElicSession))
    (freshId : String) (now : Int) :
    List (String × ElicSession) × String × SelectKind :=
  match hdr with
  | some h =>
      if (!(h == "")) && (alookup store h).isSome then (store, h, .existing)
      else sseFallback store freshId now
  | none => sseFallback store freshId now

/-- C8 (amended): a matching non-empty session header selects exactly
that session and only then; but a submit on the SSE endpoint whose
header is absent, empty or unknown is NOT rejected — it is silently
attributed to the first active existing session, or to a freshly
created one when no session is active.  Only the connect direction
behaves as originally claimed: `handle_events` rejects an absent,
empty or unknown session header with a 404. -/
theorem session_header_policy :
    ∀ (hdr : Option String) (store : List (String × ElicSession))
      (freshId : String) (now : Int),
      (∀ h, hdr = some h → h ≠ "" → (alookup store h).isSome = true →
        selectSession hdr store freshId now = (store, h, .existing)) ∧
      ((match hdr with
        | some h => h = "" ∨ (alookup store h).isSome = false
        | none => True) →
        (∀ sid s2, firstActive store = some (sid, s2) →
           selectSession hdr store freshId now
             = (store, sid, .fallbackActive)) ∧
        (firstActive store = none →
           selectSession hdr store freshId now
             = (aset store freshId (newElicSession now), freshId, .created))) ∧
      (∀ st : EchoState,
        (hdr = none ∨ hdr = some "" ∨
          (∀ h, hdr = some h → st.store.contains h = false)) →
        echoHandleEvents hdr st = none) := by
  intro hdr store freshId now
  refine ⟨?_, ?_, ?_⟩
  · intro h hh hne hsome
    subst hh
    show (if (!(h == "")) && (alookup store h).isSome then
        (store, h, SelectKind.existing)
      else sseFallback store freshId now) = (store, h, SelectKind.existing)
    have hb : (h == "") = false := by
      rw [beq_eq_false_iff_ne]
      exact hne
    rw [hb, hsome]
    rfl
  · intro hmiss
    have hfall : selectSession hdr store freshId now
        = sseFallback store freshId now := by
      cases hdr with
      | none => rfl
      | some h =>
        show (if (!(h == "")) && (alookup store h).isSome then
            (store, h, SelectKind.existing)
          else sseFallback store freshId now) = sseFallback store freshId now
        rcases hmiss with hmiss | hmiss
        · subst hmiss
          rfl
        · rw [hmiss]
          simp
    constructor
    · intro sid s2 hfa
      rw [hfall]
      unfold sseFallback
      rw [hfa]
    · intro hfa
      rw [hfall]
      unfold sseFallback
      rw [hfa]
  · intro st hrej
    cases hdr with
    | none => rfl
    | some h =>
      rcases hrej with hrej | hrej | hrej
      · exact Option.noConfusion hrej
      · rw [Option.some.inj hrej]
        rfl
      · show (if h = "" then none
            else if st.store.contains h then some h else none) = none
        by_cases hhe : h = ""
        · rw [if_pos hhe]
        · rw [if_neg hhe, hrej h rfl]
          rfl

def c8active : ElicSession := newElicSession 0

def c8store1 : List (String × ElicSession) := [("s1", c8active)]

def c8echoSt : EchoState := { heap := [], store := ["x"] }

theorem session_header_policy_witness :
    ("s1" : String) ≠ "" ∧
    (alookup c8store1 "s1").isSome = true ∧
    selectSession (some "s1") c8store1 "fresh" 7 = (c8store1, "s1", .existing) ∧
    echoHandleEvents none c8echoSt = none :=
  ⟨by decide, rfl,
   (session_header_policy (some "s1") c8store1 "fresh" 7).1 "s1" rfl
     (by decide) rfl,
   (session_header_policy none c8store1 "fresh" 7).2.2 c8echoSt (Or.inl rfl)⟩

/-- C8 (counterexample): a submit on the SSE endpoint with NO session
header is not rejected as a client error: with an active session `s1`
in the store it is silently attributed to `s1`, and with an empty
store a brand-new session is silently created — refuting "absence or
mismatch of the session header is rejected, never silently attributed
to some other existing session or to a freshly created one". -/
theorem headerless_submit_adopts_session_cex :
    selectSession none c8store1 "fresh" 7
      = (c8store1, "s1", .fallbackActive) ∧
    selectSession none [] "fresh" 7
      = ([("fresh", newElicSession 7)], "fresh", .created) :=
  ⟨rfl, rfl⟩
